import Mathlib

/-! G1 segmented-array free pool: the two-phase memory return protocol.

Shallow embedding of `G1SegmentedArrayFreePool::G1ReturnMemoryProcessor`
(`src/hotspot/share/gc/g1/g1SegmentedArrayFreePool.cpp`).

* A null-terminated chain of segments linked through `next` is a `List`;
  the empty list is `nullptr`.
* `size_t` accumulators wrap modulo `2 ^ 64`.
* `assert` is modelled as in a debug build: a failing assertion stops the
  call, and the outcome records the state at that point.
* `os::elapsed_counter()` is a function `clock : Nat → Int`; `clock i` is the
  `i`-th reading taken inside one call.
-/

namespace G1

/-- Addition in `size_t` arithmetic (64-bit targets). -/
def size_t_add (a b : Nat) : Nat := (a + b) % 2 ^ 64

/-- Modelled from the spec: the segment class `G1SegmentedArraySegment` is declared
outside `g1SegmentedArrayFreePool.cpp`. A segment has an identity (its address), an
immutable size in bytes read through `mem_size()`, and a `next` link, which is
represented by the position of the segment in a chain. -/
structure G1SegmentedArraySegment where
  addr : Nat
  mem_size : Nat
  deriving DecidableEq, Repr

/-- A null-terminated chain of segments, head first. -/
abbrev Chain := List G1SegmentedArraySegment

/-- Sum of `mem_size()` over a chain (mathematical, no wrap-around). -/
def chain_bytes (c : Chain) : Nat := (c.map (fun s => s.mem_size)).sum

/-- Addresses of the segments of a chain. -/
def chain_addrs (c : Chain) : List Nat := c.map (fun s => s.addr)

/-- Modelled from the spec: the free list class `G1SegmentedArrayFreeList` is declared
outside `g1SegmentedArrayFreePool.cpp`. It has a head pointer (the chain `_list`) and
the two running counters `total_bytes` (`_mem_size`) and `segment_count`
(`_num_segments`). -/
structure G1SegmentedArrayFreeList where
  addr : Nat
  _list : Chain
  _num_segments : Nat
  _mem_size : Nat
  deriving DecidableEq, Repr

namespace G1SegmentedArrayFreeList

/-- Modelled from the spec: `mem_size()` is a read of the byte counter. -/
def mem_size (fl : G1SegmentedArrayFreeList) : Nat := fl._mem_size

/-- Modelled from the spec: `num_segments()` is a read of the segment counter. -/
def num_segments (fl : G1SegmentedArrayFreeList) : Nat := fl._num_segments

/-- Modelled from the spec: `get_all` swaps the entire chain out for an empty list in
one step and returns the previous head, count and bytes. The result is
`(chain, count, bytes, list afterwards)`. -/
def get_all (fl : G1SegmentedArrayFreeList) : Chain × Nat × Nat × G1SegmentedArrayFreeList :=
  (fl._list, fl._num_segments, fl._mem_size,
    { fl with _list := [], _num_segments := 0, _mem_size := 0 })

/-- Modelled from the spec: `bulk_add` splices a pre-built chain onto the current head
and updates the counters by the given count and bytes. -/
def bulk_add (fl : G1SegmentedArrayFreeList) (chain : Chain) (num : Nat) (bytes : Nat) :
    G1SegmentedArrayFreeList :=
  { fl with _list := chain ++ fl._list,
            _num_segments := size_t_add fl._num_segments num,
            _mem_size := size_t_add fl._mem_size bytes }

/-- Modelled from the spec: `push` inserts one segment at the head and increments the
counters. -/
def push (fl : G1SegmentedArrayFreeList) (s : G1SegmentedArraySegment) :
    G1SegmentedArrayFreeList :=
  { fl with _list := s :: fl._list,
            _num_segments := size_t_add fl._num_segments 1,
            _mem_size := size_t_add fl._mem_size s.mem_size }

end G1SegmentedArrayFreeList

/-- The members of `G1ReturnMemoryProcessor`. `_source` holds the address of the free
list it points to, `none` being `nullptr`; `_first` is the detached chain. -/
structure G1ReturnMemoryProcessor where
  _source : Option Nat
  _return_to_vm_size : Nat
  _first : Chain
  _unlinked_bytes : Nat
  _num_unlinked : Nat
  deriving DecidableEq, Repr

/-- Modelled from the spec: the constructor is declared outside
`g1SegmentedArrayFreePool.cpp`. A new processor is idle: it has its target, no source
and no detached chain. -/
def G1ReturnMemoryProcessor.create (return_to_vm : Nat) : G1ReturnMemoryProcessor :=
  { _source := none, _return_to_vm_size := return_to_vm, _first := [],
    _unlinked_bytes := 0, _num_unlinked := 0 }

/-- Modelled from the spec: `finished_return_to_vm()` is declared outside
`g1SegmentedArrayFreePool.cpp`; it is the pure state query "no detached source and no
remaining target". -/
def finished_return_to_vm (p : G1ReturnMemoryProcessor) : Bool :=
  p._source.isNone && p._return_to_vm_size == 0

/-- Modelled from the spec: `finished_return_to_os()` is declared outside
`g1SegmentedArrayFreePool.cpp`; it is the pure state query "no remaining detached
chain". -/
def finished_return_to_os (p : G1ReturnMemoryProcessor) : Bool :=
  p._first.isEmpty

/-- The places at which a call can stop abnormally. -/
inductive Stop where
  /-- Line 57, `assert(_source == nullptr, "already visited")`. -/
  | already_visited
  /-- Line 61, `assert(_source == nullptr, "must be")`. -/
  | visit_source_must_be_null
  /-- Line 66, `assert(_first == nullptr, "must be")`. -/
  | visit_first_must_be_null
  /-- Line 80, `assert(!finished_return_to_vm(), ...)`. -/
  | already_returned_to_vm
  /-- Line 81, `assert(_first != nullptr, "must have segment to return")`. -/
  | must_have_segment
  /-- Line 104, `assert(_first != nullptr, "must be")`. -/
  | vm_first_must_be
  /-- Line 105, `assert(last != nullptr, "must be")`. -/
  | vm_last_must_be
  /-- Line 111, `_source->bulk_add(...)` through a null `_source`. -/
  | null_source
  /-- Line 130, `assert(finished_return_to_vm(), ...)`. -/
  | not_finished_return_to_vm
  /-- Line 131, `assert(!finished_return_to_os(), ...)`. -/
  | already_returned_to_os
  deriving DecidableEq, Repr

/-- Outcome of a call: either it returns `ret` and leaves the processor and the free
list in the given states, or it stops at `stop` with the states reached so far. -/
inductive Outcome (ρ : Type) where
  | returned (ret : ρ) (p : G1ReturnMemoryProcessor) (fl : G1SegmentedArrayFreeList)
  | stopped (stop : Stop) (p : G1ReturnMemoryProcessor) (fl : G1SegmentedArrayFreeList)
  deriving DecidableEq, Repr

/-- Lines 72-75 of `visit_free_list`: reset when nothing was detached. -/
def visit_reset (p : G1ReturnMemoryProcessor) : G1ReturnMemoryProcessor :=
  if p._first.isEmpty then { p with _source := none, _return_to_vm_size := 0 } else p

/-- `G1ReturnMemoryProcessor::visit_free_list(source)`, lines 56-76. -/
def visit_free_list (p : G1ReturnMemoryProcessor) (source : G1SegmentedArrayFreeList) :
    Outcome Unit :=
  if p._source.isSome then .stopped .already_visited p source
  else if p._return_to_vm_size = 0 ∧ p._source.isSome then
    .stopped .visit_source_must_be_null p source
  else
    let p1 := if p._return_to_vm_size > 0 then { p with _source := some source.addr } else p
    if source.mem_size > p1._return_to_vm_size then
      let r := source.get_all
      let p2 := { p1 with _first := r.1, _num_unlinked := r.2.1, _unlinked_bytes := r.2.2.1 }
      .returned () (visit_reset p2) r.2.2.2
    else if !p1._first.isEmpty then .stopped .visit_first_must_be_null p1 source
    else .returned () (visit_reset p1) source

/-- Local variables of the loop of `return_to_vm` (lines 83-102), together with the
member `_return_to_vm_size` it updates and the number of clock readings taken.
`walked` is the chain from `_first` up to and including `last`; `last` is null exactly
when `walked` is empty. -/
structure VmLoop where
  walked : Chain
  keep_size : Nat
  keep_num : Nat
  _return_to_vm_size : Nat
  clock_reads : Nat
  deriving DecidableEq, Repr

/-- The loop of `return_to_vm`, lines 89-102, by recursion on the chain from `cur`.
Returns the final `cur` and the final locals. -/
def return_to_vm_loop (deadline : Int) (clock : Nat → Int) : Chain → VmLoop → Chain × VmLoop
  | [], st => ([], st)
  | cur :: next, st =>
    if st._return_to_vm_size > 0 then
      let cur_size := cur.mem_size
      let st1 : VmLoop :=
        { walked := st.walked ++ [cur],
          keep_size := size_t_add st.keep_size cur_size,
          keep_num := size_t_add st.keep_num 1,
          _return_to_vm_size := st._return_to_vm_size - min st._return_to_vm_size cur_size,
          clock_reads := st.clock_reads + 1 }
      if clock st.clock_reads > deadline then (next, st1)
      else return_to_vm_loop deadline clock next st1
    else (cur :: next, st)

/-- What `return_to_vm` hands back: its boolean result and the number of clock readings
it took. -/
structure VmReturn where
  result : Bool
  clock_reads : Nat
  deriving DecidableEq, Repr

/-- `G1ReturnMemoryProcessor::return_to_vm(deadline)`, lines 79-126. `source` is the
free list `_source` points to. -/
def return_to_vm (p : G1ReturnMemoryProcessor) (source : G1SegmentedArrayFreeList)
    (deadline : Int) (clock : Nat → Int) : Outcome VmReturn :=
  if finished_return_to_vm p then .stopped .already_returned_to_vm p source
  else if p._first.isEmpty then .stopped .must_have_segment p source
  else
    let r := return_to_vm_loop deadline clock p._first
      { walked := [], keep_size := 0, keep_num := 0,
        _return_to_vm_size := p._return_to_vm_size, clock_reads := 0 }
    let p1 := { p with _return_to_vm_size := r.2._return_to_vm_size }
    if p1._first.isEmpty then .stopped .vm_first_must_be p1 source
    else if r.2.walked.isEmpty then .stopped .vm_last_must_be p1 source
    else if p1._source.isNone then .stopped .null_source p1 source
    else
      let source1 := source.bulk_add r.2.walked r.2.keep_num r.2.keep_size
      let p2 := { p1 with _first := r.1 }
      let p3 :=
        if p2._return_to_vm_size = 0 ∨ p2._first.isEmpty then
          { p2 with _source := none, _return_to_vm_size := 0 }
        else p2
      .returned { result := p3._source.isSome, clock_reads := r.2.clock_reads } p3 source1

/-- Local variables of the loop of `return_to_os` (lines 134-148), the segments deleted
so far (in order) and the number of clock readings taken. -/
structure OsLoop where
  deleted : Chain
  num_delete : Nat
  mem_size_deleted : Nat
  clock_reads : Nat
  deriving DecidableEq, Repr

/-- The loop of `return_to_os`, lines 137-148, by recursion on the chain from `_first`.
Returns the final `_first` and the final locals. -/
def return_to_os_loop (deadline : Int) (clock : Nat → Int) : Chain → OsLoop → Chain × OsLoop
  | [], st => ([], st)
  | first :: next, st =>
    let st1 : OsLoop :=
      { deleted := st.deleted ++ [first],
        num_delete := size_t_add st.num_delete 1,
        mem_size_deleted := size_t_add st.mem_size_deleted first.mem_size,
        clock_reads := st.clock_reads + 1 }
    if clock st.clock_reads > deadline then (next, st1)
    else return_to_os_loop deadline clock next st1

/-- What `return_to_os` hands back: its boolean result, the segments it deleted and the
number of clock readings it took. -/
structure OsReturn where
  result : Bool
  deleted : Chain
  clock_reads : Nat
  deriving DecidableEq, Repr

/-- `G1ReturnMemoryProcessor::return_to_os(deadline)`, lines 129-153. The free list is
passed through untouched. -/
def return_to_os (p : G1ReturnMemoryProcessor) (source : G1SegmentedArrayFreeList)
    (deadline : Int) (clock : Nat → Int) : Outcome OsReturn :=
  if !finished_return_to_vm p then .stopped .not_finished_return_to_vm p source
  else if finished_return_to_os p then .stopped .already_returned_to_os p source
  else
    let r := return_to_os_loop deadline clock p._first
      { deleted := [], num_delete := 0, mem_size_deleted := 0, clock_reads := 0 }
    let p1 := { p with _first := r.1 }
    .returned { result := !p1._first.isEmpty, deleted := r.2.deleted,
                clock_reads := r.2.clock_reads } p1 source

/-- A chain of `n` segments of `s` bytes each, with addresses `a, a+1, ...`. -/
def uniform_chain (a : Nat) (s : Nat) : Nat → Chain
  | 0 => []
  | n + 1 => { addr := a, mem_size := s } :: uniform_chain (a + 1) s n

/-- A free list whose counters agree with its chain. -/
def free_list_of (addr : Nat) (c : Chain) : G1SegmentedArrayFreeList :=
  { addr := addr, _list := c, _num_segments := c.length, _mem_size := chain_bytes c }

/-- Four segments of 10, 20, 30 and 40 bytes. -/
def mixed_chain : Chain :=
  [{ addr := 100, mem_size := 10 }, { addr := 101, mem_size := 20 },
   { addr := 102, mem_size := 30 }, { addr := 103, mem_size := 40 }]

/-- A clock that never exceeds the deadline `d`. -/
def clock_before (d : Int) : Nat → Int := fun _ => d

/-- A clock whose every reading is past the deadline `d`. -/
def clock_past (d : Int) : Nat → Int := fun _ => d + 1



/-- One call made by the driver of a processor. -/
inductive Call where
  | visit
  | to_vm (deadline : Int) (clock : Nat → Int)
  | to_os (deadline : Int) (clock : Nat → Int)

/-- The processor, the free list it works on and the segments deleted so far. -/
structure World where
  proc : G1ReturnMemoryProcessor
  free_list : G1SegmentedArrayFreeList
  destroyed : Chain

/-- A newly constructed processor with the given target next to a free list; nothing
has been deleted yet. -/
def World.initial (target : Nat) (fl : G1SegmentedArrayFreeList) : World :=
  { proc := G1ReturnMemoryProcessor.create target, free_list := fl, destroyed := [] }

/-- Perform one call; `none` when the call stops at an assertion. -/
def step (w : World) : Call → Option World
  | .visit =>
    match visit_free_list w.proc w.free_list with
    | .returned _ p fl => some { proc := p, free_list := fl, destroyed := w.destroyed }
    | .stopped _ _ _ => none
  | .to_vm d clock =>
    match return_to_vm w.proc w.free_list d clock with
    | .returned _ p fl => some { proc := p, free_list := fl, destroyed := w.destroyed }
    | .stopped _ _ _ => none
  | .to_os d clock =>
    match return_to_os w.proc w.free_list d clock with
    | .returned ret p fl =>
      some { proc := p, free_list := fl, destroyed := w.destroyed ++ ret.deleted }
    | .stopped _ _ _ => none

/-- Perform a sequence of calls; `none` as soon as one of them stops at an assertion. -/
def run (w : World) : List Call → Option World
  | [] => some w
  | c :: cs =>
    match step w c with
    | some w1 => run w1 cs
    | none => none

/-- The addresses of all segments a world knows of: free list, detached chain, deleted. -/
def World.addrs (w : World) : List Nat :=
  chain_addrs (w.free_list._list ++ w.proc._first ++ w.destroyed)

/-- The processor once the VM phase of `pending_processor` is complete: three detached
segments are left for `return_to_os`. -/
def drained_processor : G1ReturnMemoryProcessor :=
  { _source := none, _return_to_vm_size := 0, _first := uniform_chain 102 10 3,
    _unlinked_bytes := 50, _num_unlinked := 5 }

/-- A processor in the middle of a cycle: source set, 20 bytes still to return to the
VM, five detached segments of 10 bytes. -/
def pending_processor : G1ReturnMemoryProcessor :=
  { _source := some 1, _return_to_vm_size := 20, _first := uniform_chain 100 10 5,
    _unlinked_bytes := 50, _num_unlinked := 5 }

/-- A whole cycle in slices: the visit, two `return_to_vm` calls that each find the
deadline already past, and one `return_to_os` call with time to spare. -/
def sliced_cycle : List Call :=
  [.visit, .to_vm 0 (clock_past 0), .to_vm 0 (clock_past 0), .to_os 0 (clock_before 0)]

/-- The world `sliced_cycle` leads to from five segments of 10 bytes and a target of 20. -/
def sliced_cycle_end : World :=
  { proc := { drained_processor with _first := [] },
    free_list :=
      { addr := 1,
        _list := [{ addr := 101, mem_size := 10 }, { addr := 100, mem_size := 10 }],
        _num_segments := 2, _mem_size := 20 },
    destroyed := uniform_chain 102 10 3 }

/-- Number of readings among the first `m` of a call that are within the deadline. -/
def readings_within (deadline : Int) (clock : Nat → Int) (m : Nat) : Nat :=
  ((List.range m).filter (fun j => decide (clock j ≤ deadline))).length

/-- A clock that starts at 0 and advances by one tick per reading. -/
def ticking_clock : Nat → Int := fun i => (i : Int)

/-- A processor in the middle of a cycle with a target larger than its detached chain:
source set, 100 bytes to return to the VM, five detached segments of 10 bytes. -/
def slow_processor : G1ReturnMemoryProcessor :=
  { _source := some 1, _return_to_vm_size := 100, _first := uniform_chain 100 10 5,
    _unlinked_bytes := 50, _num_unlinked := 5 }

/-- A processor visited with target 0: the chain is detached and no source is set. -/
def zero_target_visited : G1ReturnMemoryProcessor :=
  { _source := none, _return_to_vm_size := 0, _first := [{ addr := 100, mem_size := 10 }],
    _unlinked_bytes := 10, _num_unlinked := 1 }

/-! ## Iteration counts and accumulators of the loops -/

/-- Number of iterations the loop of `return_to_vm` performs on chain `c` with remaining
target `r`, the next clock reading having index `i`. -/
def vm_steps (deadline : Int) (clock : Nat → Int) : Chain → Nat → Nat → Nat
  | [], _, _ => 0
  | s :: t, r, i =>
    if r > 0 then
      if clock i > deadline then 1
      else 1 + vm_steps deadline clock t (r - min r s.mem_size) (i + 1)
    else 0

/-- Number of iterations the loop of `return_to_os` performs on chain `c`, the next
clock reading having index `i`. -/
def os_steps (deadline : Int) (clock : Nat → Int) : Chain → Nat → Nat
  | [], _ => 0
  | _ :: t, i => if clock i > deadline then 1 else 1 + os_steps deadline clock t (i + 1)

/-- Iterated `size_t` addition of the sizes of a chain to an accumulator. -/
def size_t_bytes (acc : Nat) (c : Chain) : Nat :=
  c.foldl (fun a s => size_t_add a s.mem_size) acc

/-- Iterated `size_t` increment, once per segment of a chain. -/
def size_t_count (acc : Nat) (c : Chain) : Nat :=
  c.foldl (fun a _ => size_t_add a 1) acc

/-- State of the processor after a `return_to_vm` call that walked `m` segments. -/
def vm_after (p : G1ReturnMemoryProcessor) (m : Nat) : G1ReturnMemoryProcessor :=
  if p._return_to_vm_size - chain_bytes (p._first.take m) = 0 ∨ (p._first.drop m).isEmpty then
    { p with _first := p._first.drop m, _source := none, _return_to_vm_size := 0 }
  else
    { p with _first := p._first.drop m,
             _return_to_vm_size := p._return_to_vm_size - chain_bytes (p._first.take m) }

/-- The locals of `return_to_vm` on entry to its loop (lines 83-87). -/
def vm_loop_start (p : G1ReturnMemoryProcessor) : VmLoop :=
  { walked := [], keep_size := 0, keep_num := 0,
    _return_to_vm_size := p._return_to_vm_size, clock_reads := 0 }

/-- Push the segments of `pushed` onto a free list one after the other, first one first. -/
def push_all (fl : G1SegmentedArrayFreeList) (pushed : Chain) : G1SegmentedArrayFreeList :=
  pushed.foldl G1SegmentedArrayFreeList.push fl

/-- Two new segments of 10 bytes, as pushed by another thread. -/
def two_pushed : Chain :=
  [{ addr := 200, mem_size := 10 }, { addr := 201, mem_size := 10 }]

/-- The members of `G1SegmentedArrayMemoryStats<num>`: two arrays of `num` entries each. -/
structure G1SegmentedArrayMemoryStats where
  _num_mem_sizes : List Nat
  _num_segments : List Nat
  deriving DecidableEq, Repr

/-- `G1SegmentedArrayMemoryStats<num>::clear()`, lines 40-46: the loop over
`i = 0 .. num - 1` writing 0 into both arrays. -/
def G1SegmentedArrayMemoryStats.clear (num : Nat) (st : G1SegmentedArrayMemoryStats) :
    G1SegmentedArrayMemoryStats :=
  (List.range num).foldl
    (fun acc i =>
      { _num_mem_sizes := acc._num_mem_sizes.set i 0, _num_segments := acc._num_segments.set i 0 })
    st

/-- The constructor of `G1SegmentedArrayMemoryStats<num>`, lines 35-38: the arrays start
with whatever their storage holds (`raw`) and are cleared. -/
def G1SegmentedArrayMemoryStats.create (num : Nat) (raw : G1SegmentedArrayMemoryStats) :
    G1SegmentedArrayMemoryStats :=
  G1SegmentedArrayMemoryStats.clear num raw

/-- The member `_free_lists` of `G1SegmentedArrayFreePool`: an array of `NUM` free
lists, `NUM` being `Configuration::num_mem_object_types()`. -/
structure G1SegmentedArrayFreePool where
  _free_lists : List G1SegmentedArrayFreeList
  deriving DecidableEq, Repr

/-- Modelled from the spec: a newly constructed free list is empty, with both counters
at 0. It also stands for what an out-of-range read of `_free_lists` yields. -/
def empty_free_list : G1SegmentedArrayFreeList :=
  { addr := 0, _list := [], _num_segments := 0, _mem_size := 0 }

/-- `G1SegmentedArrayFreePool::memory_sizes()`, lines 174-182. `raw` is the storage the
local `free_list_stats` is constructed in. -/
def G1SegmentedArrayFreePool.memory_sizes (NUM : Nat) (pool : G1SegmentedArrayFreePool)
    (raw : G1SegmentedArrayMemoryStats) : G1SegmentedArrayMemoryStats :=
  (List.range NUM).foldl
    (fun free_list_stats i =>
      { _num_mem_sizes := free_list_stats._num_mem_sizes.set i
          (pool._free_lists.getD i empty_free_list).mem_size,
        _num_segments := free_list_stats._num_segments.set i
          (pool._free_lists.getD i empty_free_list).num_segments })
    (G1SegmentedArrayMemoryStats.create NUM raw)

/-- `G1SegmentedArrayFreePool::mem_size()`, lines 184-191. -/
def G1SegmentedArrayFreePool.mem_size (NUM : Nat) (pool : G1SegmentedArrayFreePool) : Nat :=
  (List.range NUM).foldl
    (fun result i => size_t_add result (pool._free_lists.getD i empty_free_list).mem_size) 0

/-- A pool of three free lists holding 50, 0 and 30 bytes. -/
def sample_pool : G1SegmentedArrayFreePool :=
  { _free_lists := [free_list_of 1 (uniform_chain 100 10 5), free_list_of 2 [],
                    free_list_of 3 (uniform_chain 300 15 2)] }

/-- Storage of three entries per array holding arbitrary values. -/
def sample_raw : G1SegmentedArrayMemoryStats :=
  { _num_mem_sizes := [7, 8, 9], _num_segments := [4, 5, 6] }

/-- The relation between the members that `visit_free_list` and `return_to_vm`
establish: `_source` is set exactly when target remains, and then the detached chain is
non-empty. -/
def state_invariant (p : G1ReturnMemoryProcessor) : Bool :=
  (p._source.isSome == decide (0 < p._return_to_vm_size)) &&
    (!p._source.isSome || !p._first.isEmpty)

/-- Number of segments `return_to_vm` has to walk on chain `c` to account for a target
of `r` bytes: the least length whose byte sum reaches `r`, or the length of `c`. -/
def keep_count : Chain → Nat → Nat
  | [], _ => 0
  | s :: t, r => if r > 0 then 1 + keep_count t (r - min r s.mem_size) else 0

/-- The processor at the end of the VM phase, `k` segments having been kept. -/
def vm_done (p : G1ReturnMemoryProcessor) (k : Nat) : G1ReturnMemoryProcessor :=
  { p with _first := p._first.drop k, _source := none, _return_to_vm_size := 0 }

/-- Modelled from the spec: the driver is outside `g1SegmentedArrayFreePool.cpp`; it
"repeatedly invokes" `return_to_vm` until the call reports that no work remains. Call
number `n` gets the deadline `deadlines n` and the clock `clocks n`. The result is the
number of calls made so far with the final processor and free list; `none` when the
fuel runs out or a call stops at an assertion. -/
def repeat_return_to_vm (deadlines : Nat → Int) (clocks : Nat → Nat → Int) :
    Nat → Nat → G1ReturnMemoryProcessor → G1SegmentedArrayFreeList →
      Option (Nat × G1ReturnMemoryProcessor × G1SegmentedArrayFreeList)
  | 0, _, _, _ => none
  | fuel + 1, n, p, fl =>
    match return_to_vm p fl (deadlines n) (clocks n) with
    | .returned ret p1 fl1 =>
      if ret.result then repeat_return_to_vm deadlines clocks fuel (n + 1) p1 fl1
      else some (n + 1, p1, fl1)
    | .stopped _ _ _ => none

/-- Modelled from the spec: the driver is outside `g1SegmentedArrayFreePool.cpp`; it
"repeatedly invokes" `return_to_os` until the call reports that no work remains. The
result also lists the segments deleted, in order. -/
def repeat_return_to_os (deadlines : Nat → Int) (clocks : Nat → Nat → Int) :
    Nat → Nat → G1ReturnMemoryProcessor → G1SegmentedArrayFreeList → Chain →
      Option (Nat × G1ReturnMemoryProcessor × G1SegmentedArrayFreeList × Chain)
  | 0, _, _, _, _ => none
  | fuel + 1, n, p, fl, destroyed =>
    match return_to_os p fl (deadlines n) (clocks n) with
    | .returned ret p1 fl1 =>
      if ret.result then
        repeat_return_to_os deadlines clocks fuel (n + 1) p1 fl1 (destroyed ++ ret.deleted)
      else some (n + 1, p1, fl1, destroyed ++ ret.deleted)
    | .stopped _ _ _ => none

/-- Modelled from the spec: the driver of one processor after the visit. It runs the VM
phase unless `finished_return_to_vm()` already holds, then the OS phase unless
`finished_return_to_os()` already holds. The result is the total number of calls, the
final processor and free list, and the segments deleted. -/
def drive (deadlines : Nat → Int) (clocks : Nat → Nat → Int) (fuel : Nat)
    (p : G1ReturnMemoryProcessor) (fl : G1SegmentedArrayFreeList) :
    Option (Nat × G1ReturnMemoryProcessor × G1SegmentedArrayFreeList × Chain) :=
  match (if finished_return_to_vm p then some (0, p, fl)
         else repeat_return_to_vm deadlines clocks fuel 0 p fl) with
  | none => none
  | some (n, p1, fl1) =>
    if finished_return_to_os p1 then some (n, p1, fl1, [])
    else repeat_return_to_os deadlines clocks fuel n p1 fl1 []

/-! ## The loops in closed form -/

theorem chain_bytes_nil : chain_bytes [] = 0 := rfl

theorem chain_bytes_cons (s : G1SegmentedArraySegment) (c : Chain) :
    chain_bytes (s :: c) = s.mem_size + chain_bytes c := by
  simp [chain_bytes]

theorem chain_bytes_append (a b : Chain) :
    chain_bytes (a ++ b) = chain_bytes a + chain_bytes b := by
  simp [chain_bytes]

theorem sub_min_eq (r x : Nat) : r - min r x = r - x := by
  rcases Nat.le_total r x with h | h
  · simp [Nat.min_eq_left h, Nat.sub_eq_zero_of_le h]
  · simp [Nat.min_eq_right h]

theorem return_to_vm_loop_eq (d : Int) (clock : Nat → Int) (c : Chain) (st : VmLoop) :
    return_to_vm_loop d clock c st =
      (c.drop (vm_steps d clock c st._return_to_vm_size st.clock_reads),
        { walked := st.walked ++ c.take (vm_steps d clock c st._return_to_vm_size st.clock_reads),
          keep_size := size_t_bytes st.keep_size
            (c.take (vm_steps d clock c st._return_to_vm_size st.clock_reads)),
          keep_num := size_t_count st.keep_num
            (c.take (vm_steps d clock c st._return_to_vm_size st.clock_reads)),
          _return_to_vm_size := st._return_to_vm_size -
            chain_bytes (c.take (vm_steps d clock c st._return_to_vm_size st.clock_reads)),
          clock_reads := st.clock_reads +
            vm_steps d clock c st._return_to_vm_size st.clock_reads }) := by
  induction c generalizing st with
  | nil => simp [return_to_vm_loop, vm_steps, size_t_bytes, size_t_count, chain_bytes]
  | cons s t ih =>
    unfold return_to_vm_loop vm_steps
    by_cases hr : st._return_to_vm_size > 0
    · by_cases hc : clock st.clock_reads > d
      · simp [hr, hc, size_t_bytes, size_t_count, chain_bytes, sub_min_eq]
      · simp only [hr, hc, if_true, if_false]
        rw [ih]
        simp [size_t_bytes, size_t_count, chain_bytes, sub_min_eq, Nat.add_comm 1,
          Nat.sub_sub, Nat.add_assoc]
    · simp [hr, size_t_bytes, size_t_count, chain_bytes]

theorem return_to_os_loop_eq (d : Int) (clock : Nat → Int) (c : Chain) (st : OsLoop) :
    return_to_os_loop d clock c st =
      (c.drop (os_steps d clock c st.clock_reads),
        { deleted := st.deleted ++ c.take (os_steps d clock c st.clock_reads),
          num_delete := size_t_count st.num_delete (c.take (os_steps d clock c st.clock_reads)),
          mem_size_deleted :=
            size_t_bytes st.mem_size_deleted (c.take (os_steps d clock c st.clock_reads)),
          clock_reads := st.clock_reads + os_steps d clock c st.clock_reads }) := by
  induction c generalizing st with
  | nil => simp [return_to_os_loop, os_steps, size_t_bytes, size_t_count]
  | cons s t ih =>
    unfold return_to_os_loop os_steps
    by_cases hc : clock st.clock_reads > d
    · simp [hc, size_t_bytes, size_t_count]
    · simp only [hc, if_false]
      rw [ih]
      simp [size_t_bytes, size_t_count, Nat.add_comm 1, Nat.add_assoc]

/-! ## Properties of the iteration counts -/

theorem vm_steps_le_length (d : Int) (clock : Nat → Int) (c : Chain) (r i : Nat) :
    vm_steps d clock c r i ≤ c.length := by
  induction c generalizing r i with
  | nil => simp [vm_steps]
  | cons s t ih =>
    unfold vm_steps
    split_ifs
    · simp
    · have := ih (r - min r s.mem_size) (i + 1)
      simp only [List.length_cons]
      omega
    · simp

theorem vm_steps_pos (d : Int) (clock : Nat → Int) (c : Chain) (r i : Nat)
    (hc : c ≠ []) (hr : 0 < r) : 0 < vm_steps d clock c r i := by
  cases c with
  | nil => exact absurd rfl hc
  | cons s t =>
    unfold vm_steps
    split_ifs <;> omega

theorem vm_steps_zero_target (d : Int) (clock : Nat → Int) (c : Chain) (i : Nat) :
    vm_steps d clock c 0 i = 0 := by
  cases c <;> simp [vm_steps]

/-- Every segment the loop walks is entered with a positive remaining target: the bytes
of the segments before it are below the target. -/
theorem vm_steps_bytes_lt (d : Int) (clock : Nat → Int) (c : Chain) (r i j : Nat)
    (hj : j < vm_steps d clock c r i) : chain_bytes (c.take j) < r := by
  induction c generalizing r i j with
  | nil => simp [vm_steps] at hj
  | cons s t ih =>
    unfold vm_steps at hj
    by_cases hr : r > 0
    · cases j with
      | zero => simpa [chain_bytes] using hr
      | succ k =>
        by_cases hc : clock i > d
        · simp [hr, hc] at hj
        · simp only [hr, hc, if_true, if_false] at hj
          have hk : k < vm_steps d clock t (r - min r s.mem_size) (i + 1) := by omega
          have := ih (r - min r s.mem_size) (i + 1) k hk
          rw [sub_min_eq] at this
          simp only [List.take_succ_cons, chain_bytes_cons]
          omega
    · simp [hr] at hj

/-- Every reading but the last one taken by the loop of `return_to_vm` was within the
deadline. -/
theorem vm_steps_readings (d : Int) (clock : Nat → Int) (c : Chain) (r i j : Nat)
    (hj : j + 1 < vm_steps d clock c r i) : clock (i + j) ≤ d := by
  induction c generalizing r i j with
  | nil => simp [vm_steps] at hj
  | cons s t ih =>
    unfold vm_steps at hj
    by_cases hr : r > 0
    · by_cases hc : clock i > d
      · simp [hr, hc] at hj
      · simp only [hr, hc, if_true, if_false] at hj
        cases j with
        | zero => simpa using hc
        | succ k =>
          have hk : k + 1 < vm_steps d clock t (r - min r s.mem_size) (i + 1) := by omega
          have := ih (r - min r s.mem_size) (i + 1) k hk
          have e : i + (k + 1) = i + 1 + k := by omega
          rw [e]
          exact this
    · simp [hr] at hj

/-- Why the loop of `return_to_vm` stops: the chain is exhausted, the target is
accounted for, or the reading after the last walked segment was past the deadline. -/
theorem vm_steps_exit (d : Int) (clock : Nat → Int) (c : Chain) (r i : Nat) :
    vm_steps d clock c r i = c.length ∨
      r ≤ chain_bytes (c.take (vm_steps d clock c r i)) ∨
      (0 < vm_steps d clock c r i ∧ clock (i + vm_steps d clock c r i - 1) > d) := by
  induction c generalizing r i with
  | nil => simp [vm_steps]
  | cons s t ih =>
    unfold vm_steps
    by_cases hr : r > 0
    · by_cases hc : clock i > d
      · right; right
        simp [hr, hc]
      · simp only [hr, hc, if_true, if_false]
        rcases ih (r - min r s.mem_size) (i + 1) with h | h | h
        · left
          simp [h, Nat.add_comm]
        · right; left
          simp only [sub_min_eq] at h ⊢
          rw [Nat.add_comm 1, List.take_succ_cons, chain_bytes_cons]
          omega
        · right; right
          refine ⟨by omega, ?_⟩
          have e : i + (1 + vm_steps d clock t (r - min r s.mem_size) (i + 1)) - 1 =
              i + 1 + vm_steps d clock t (r - min r s.mem_size) (i + 1) - 1 := by omega
          rw [e]
          exact h.2
    · right; left
      simp [hr]
      omega

theorem os_steps_le_length (d : Int) (clock : Nat → Int) (c : Chain) (i : Nat) :
    os_steps d clock c i ≤ c.length := by
  induction c generalizing i with
  | nil => simp [os_steps]
  | cons s t ih =>
    unfold os_steps
    split_ifs
    · simp
    · have := ih (i + 1)
      simp only [List.length_cons]
      omega

theorem os_steps_pos (d : Int) (clock : Nat → Int) (c : Chain) (i : Nat) (hc : c ≠ []) :
    0 < os_steps d clock c i := by
  cases c with
  | nil => exact absurd rfl hc
  | cons s t =>
    unfold os_steps
    split_ifs <;> omega

/-- Every reading but the last one taken by the loop of `return_to_os` was within the
deadline. -/
theorem os_steps_readings (d : Int) (clock : Nat → Int) (c : Chain) (i j : Nat)
    (hj : j + 1 < os_steps d clock c i) : clock (i + j) ≤ d := by
  induction c generalizing i j with
  | nil => simp [os_steps] at hj
  | cons s t ih =>
    unfold os_steps at hj
    by_cases hc : clock i > d
    · simp [hc] at hj
    · simp only [hc, if_false] at hj
      cases j with
      | zero => simpa using hc
      | succ k =>
        have hk : k + 1 < os_steps d clock t (i + 1) := by omega
        have := ih (i + 1) k hk
        have e : i + (k + 1) = i + 1 + k := by omega
        rw [e]
        exact this

/-- Why the loop of `return_to_os` stops: the chain is exhausted, or the reading after
the last deleted segment was past the deadline. -/
theorem os_steps_exit (d : Int) (clock : Nat → Int) (c : Chain) (i : Nat) :
    os_steps d clock c i = c.length ∨
      (0 < os_steps d clock c i ∧ clock (i + os_steps d clock c i - 1) > d) := by
  induction c generalizing i with
  | nil => simp [os_steps]
  | cons s t ih =>
    unfold os_steps
    by_cases hc : clock i > d
    · right
      simp [hc]
    · simp only [hc, if_false]
      rcases ih (i + 1) with h | h
      · left
        simp [h, Nat.add_comm]
      · right
        refine ⟨by omega, ?_⟩
        have e : i + (1 + os_steps d clock t (i + 1)) - 1 =
            i + 1 + os_steps d clock t (i + 1) - 1 := by omega
        rw [e]
        exact h.2

/-! ## The calls in closed form -/

/-- In every state in which `_source` is set exactly when target remains (the states
`visit_free_list` and `return_to_vm` produce), `finished_return_to_vm()` is the test
`_source == nullptr`. -/
theorem finished_return_to_vm_eq_source_null (p : G1ReturnMemoryProcessor)
    (h : p._source.isSome = true ↔ 0 < p._return_to_vm_size) :
    finished_return_to_vm p = p._source.isNone := by
  cases hs : p._source with
  | none =>
    have h0 : p._return_to_vm_size = 0 := by
      rcases Nat.eq_zero_or_pos p._return_to_vm_size with h1 | h1
      · exact h1
      · have := h.mpr h1
        simp [hs] at this
    simp [finished_return_to_vm, hs, h0]
  | some a => simp [finished_return_to_vm, hs]

theorem take_ne_nil_of_pos (c : Chain) (m : Nat) (hc : c ≠ []) (hm : 0 < m) :
    c.take m ≠ [] := by
  cases c with
  | nil => exact absurd rfl hc
  | cons s t =>
    cases m with
    | zero => omega
    | succ k => simp

/-- A `return_to_vm` call on a processor that has a source, a positive remaining target
and a non-empty detached chain returns, and this is its effect. -/
theorem return_to_vm_returned (p : G1ReturnMemoryProcessor) (fl : G1SegmentedArrayFreeList)
    (d : Int) (clock : Nat → Int)
    (hs : p._source.isSome = true) (hr : 0 < p._return_to_vm_size) (hf : p._first ≠ []) :
    return_to_vm p fl d clock =
      .returned
        { result := (vm_after p (vm_steps d clock p._first p._return_to_vm_size 0))._source.isSome,
          clock_reads := vm_steps d clock p._first p._return_to_vm_size 0 }
        (vm_after p (vm_steps d clock p._first p._return_to_vm_size 0))
        (fl.bulk_add (p._first.take (vm_steps d clock p._first p._return_to_vm_size 0))
          (size_t_count 0 (p._first.take (vm_steps d clock p._first p._return_to_vm_size 0)))
          (size_t_bytes 0 (p._first.take (vm_steps d clock p._first p._return_to_vm_size 0)))) := by
  have hm := vm_steps_pos d clock p._first p._return_to_vm_size 0 hf hr
  have ht := take_ne_nil_of_pos p._first _ hf hm
  have hfin : finished_return_to_vm p = false := by
    cases h : p._source <;> simp_all [finished_return_to_vm]
  have hsn : p._source.isNone = false := by
    cases h : p._source <;> simp_all
  unfold return_to_vm
  simp only [hfin, return_to_vm_loop_eq]
  simp [hf, ht, hsn, vm_after]

/-- A `return_to_os` call on a processor whose VM phase is finished and whose detached
chain is non-empty returns, and this is its effect. -/
theorem return_to_os_returned (p : G1ReturnMemoryProcessor) (fl : G1SegmentedArrayFreeList)
    (d : Int) (clock : Nat → Int)
    (hv : finished_return_to_vm p = true) (hf : p._first ≠ []) :
    return_to_os p fl d clock =
      .returned
        { result := !(p._first.drop (os_steps d clock p._first 0)).isEmpty,
          deleted := p._first.take (os_steps d clock p._first 0),
          clock_reads := os_steps d clock p._first 0 }
        { p with _first := p._first.drop (os_steps d clock p._first 0) } fl := by
  unfold return_to_os
  simp [hv, finished_return_to_os, hf, return_to_os_loop_eq]

/-- Whenever `return_to_vm` returns, the processor had a source, a positive remaining
target and a non-empty detached chain at entry. -/
theorem return_to_vm_returned_pre (p : G1ReturnMemoryProcessor) (fl : G1SegmentedArrayFreeList)
    (d : Int) (clock : Nat → Int) (ret : VmReturn) (p1 : G1ReturnMemoryProcessor)
    (fl1 : G1SegmentedArrayFreeList) (h : return_to_vm p fl d clock = .returned ret p1 fl1) :
    p._source.isSome = true ∧ 0 < p._return_to_vm_size ∧ p._first ≠ [] := by
  unfold return_to_vm at h
  simp only [return_to_vm_loop_eq] at h
  split_ifs at h with h1 h2 h3 h4 h5 <;>
  · have hf : p._first ≠ [] := by simpa using h2
    have hr : 0 < p._return_to_vm_size := by
      rcases Nat.eq_zero_or_pos p._return_to_vm_size with h0 | h0
      · rw [h0, vm_steps_zero_target] at h3
        simp at h3
      · exact h0
    refine ⟨?_, hr, hf⟩
    cases hs : p._source <;> simp_all

/-- Whenever `return_to_os` returns, the VM phase was finished and the detached chain
was non-empty at entry. -/
theorem return_to_os_returned_pre (p : G1ReturnMemoryProcessor) (fl : G1SegmentedArrayFreeList)
    (d : Int) (clock : Nat → Int) (ret : OsReturn) (p1 : G1ReturnMemoryProcessor)
    (fl1 : G1SegmentedArrayFreeList) (h : return_to_os p fl d clock = .returned ret p1 fl1) :
    finished_return_to_vm p = true ∧ p._first ≠ [] := by
  unfold return_to_os at h
  split_ifs at h with h1 h2
  refine ⟨by simpa using h1, ?_⟩
  simpa [finished_return_to_os] using h2

/-- The effect of `visit_free_list` when the list's size exceeds a positive target and
the chain handed over by `get_all` is non-empty: the whole chain is detached. -/
theorem visit_free_list_detach (p : G1ReturnMemoryProcessor) (fl : G1SegmentedArrayFreeList)
    (hsrc : p._source = none) (ht : 0 < p._return_to_vm_size)
    (hgt : p._return_to_vm_size < fl.mem_size) (hne : fl._list ≠ []) :
    visit_free_list p fl =
      .returned ()
        { p with _source := some fl.addr, _first := fl._list,
                 _num_unlinked := fl._num_segments, _unlinked_bytes := fl._mem_size }
        { fl with _list := [], _num_segments := 0, _mem_size := 0 } := by
  unfold visit_free_list
  have h0 : p._return_to_vm_size ≠ 0 := by omega
  simp [hsrc, ht, h0, hgt, G1SegmentedArrayFreeList.get_all, visit_reset, hne]

/-- The effect of `visit_free_list` on an idle processor when the list's size does not
exceed the target: nothing is detached and the processor is reset. -/
theorem visit_free_list_keep (p : G1ReturnMemoryProcessor) (fl : G1SegmentedArrayFreeList)
    (hsrc : p._source = none) (hfirst : p._first = [])
    (hle : fl.mem_size ≤ p._return_to_vm_size) :
    visit_free_list p fl =
      .returned () { p with _source := none, _return_to_vm_size := 0 } fl := by
  unfold visit_free_list
  have hn : ¬ (fl.mem_size > p._return_to_vm_size) := by omega
  by_cases h0 : p._return_to_vm_size > 0
  · simp [hsrc, h0, hn, hfirst, visit_reset]
  · have hz : p._return_to_vm_size = 0 := by omega
    have hm : ¬ (0 < fl.mem_size) := by omega
    simp [hsrc, hz, hm, hfirst, visit_reset]

theorem chain_bytes_uniform (c : Chain) (s : Nat) (h : ∀ x ∈ c, x.mem_size = s) :
    chain_bytes c = c.length * s := by
  induction c with
  | nil => simp [chain_bytes]
  | cons a t ih =>
    have ha : a.mem_size = s := h a (List.mem_cons_self a t)
    have ht := ih (fun x hx => h x (List.mem_cons_of_mem a hx))
    rw [chain_bytes_cons, ha, ht, List.length_cons]
    ring

theorem chain_bytes_take_uniform (c : Chain) (s j : Nat) (h : ∀ x ∈ c, x.mem_size = s)
    (hj : j ≤ c.length) : chain_bytes (c.take j) = j * s := by
  have := chain_bytes_uniform (c.take j) s (fun x hx => h x (List.mem_of_mem_take hx))
  rw [this, List.length_take, Nat.min_eq_left hj]

theorem chain_bytes_drop_uniform (c : Chain) (s j : Nat) (h : ∀ x ∈ c, x.mem_size = s) :
    chain_bytes (c.drop j) = (c.length - j) * s := by
  have := chain_bytes_uniform (c.drop j) s (fun x hx => h x (List.mem_of_mem_drop hx))
  rw [this, List.length_drop]

/-- With no deadline expiry the loop of `return_to_vm` stops only when the chain is
exhausted or the target is accounted for. -/
theorem vm_steps_no_expiry (d : Int) (clock : Nat → Int) (c : Chain) (r i : Nat)
    (hclock : ∀ j, clock j ≤ d) :
    vm_steps d clock c r i = c.length ∨ r ≤ chain_bytes (c.take (vm_steps d clock c r i)) := by
  rcases vm_steps_exit d clock c r i with h | h | h
  · exact Or.inl h
  · exact Or.inr h
  · exact absurd (hclock _) (not_le.mpr h.2)

/-- With no deadline expiry, on segments of equal positive size `s` and a target of
`k * s` bytes with `k` below the chain length, the loop walks exactly `k` segments. -/
theorem vm_steps_uniform (d : Int) (clock : Nat → Int) (c : Chain) (s k : Nat)
    (h : ∀ x ∈ c, x.mem_size = s) (hs : 0 < s) (hk : k < c.length)
    (hclock : ∀ j, clock j ≤ d) : vm_steps d clock c (k * s) 0 = k := by
  have hle := vm_steps_le_length d clock c (k * s) 0
  have hup : vm_steps d clock c (k * s) 0 ≤ k := by
    by_contra hcon
    have hlt : k < vm_steps d clock c (k * s) 0 := by omega
    have := vm_steps_bytes_lt d clock c (k * s) 0 k hlt
    rw [chain_bytes_take_uniform c s k h (by omega)] at this
    omega
  rcases vm_steps_no_expiry d clock c (k * s) 0 hclock with h1 | h1
  · omega
  · rw [chain_bytes_take_uniform c s _ h hle] at h1
    have := Nat.le_of_mul_le_mul_right h1 hs
    omega

/-! ## Retention after the VM phase -/

/-- C1, as stated, fails at its own witness: with 5 segments of 10 bytes and a target
(`_return_to_vm_size`) of 20, `visit_free_list` followed by a `return_to_vm` call that
never sees the deadline expire finishes the VM phase with 2 segments (20 bytes) back
in the free list and 3 segments (30 bytes) left in the detached chain, not 3 and 2. -/
theorem C1_counterexample :
    ∃ p1 fl1 ret p2 fl2,
      visit_free_list (G1ReturnMemoryProcessor.create 20)
          (free_list_of 1 (uniform_chain 100 10 5)) = .returned () p1 fl1 ∧
        return_to_vm p1 fl1 0 (clock_before 0) = .returned ret p2 fl2 ∧
        finished_return_to_vm p2 = true ∧
        fl2._list.length = 2 ∧ chain_bytes fl2._list = 20 ∧
        p2._first.length = 3 ∧ chain_bytes p2._first = 30 ∧
        ¬ (fl2._list.length = 5 - 2 ∧ chain_bytes fl2._list = (5 - 2) * 10 ∧
            p2._first.length = 2 ∧ chain_bytes p2._first = 2 * 10) :=
  ⟨_, _, _, _, _, rfl, rfl, by decide⟩

/-- C1, amended: for a free list of `n` segments of equal positive size `s` whose byte
counter is `n * s`, and a not yet visited processor (`_source` null) whose
`_return_to_vm_size` is `k * s` with
`0 < k < n`, `visit_free_list` followed by a `return_to_vm` call with no deadline
expiry finishes the VM phase; the free list then holds exactly the first `k` segments
(`k * s` bytes), re-added through `bulk_add`, and the last `n - k` segments
(`(n - k) * s` bytes) remain in the detached chain for `return_to_os`. -/
theorem C1_retains_target (fl : G1SegmentedArrayFreeList) (p : G1ReturnMemoryProcessor)
    (n s k : Nat) (d : Int) (clock : Nat → Int)
    (hlen : fl._list.length = n) (hsz : ∀ x ∈ fl._list, x.mem_size = s) (hs : 0 < s)
    (hcount : fl.mem_size = n * s)
    (hsrc : p._source = none) (htarget : p._return_to_vm_size = k * s)
    (hk : 0 < k) (hkn : k < n) (hclock : ∀ i, clock i ≤ d) :
    ∃ p1 fl1 ret p2 fl2,
      visit_free_list p fl = .returned () p1 fl1 ∧
        return_to_vm p1 fl1 d clock = .returned ret p2 fl2 ∧
        ret.result = false ∧ finished_return_to_vm p2 = true ∧
        fl2._list = fl._list.take k ∧ fl2._list.length = k ∧ chain_bytes fl2._list = k * s ∧
        p2._first = fl._list.drop k ∧ p2._first.length = n - k ∧
        chain_bytes p2._first = (n - k) * s := by
  have hne : fl._list ≠ [] := by
    intro h0
    rw [h0] at hlen
    simp at hlen
    omega
  have ht : 0 < p._return_to_vm_size := by
    rw [htarget]
    exact Nat.mul_pos hk hs
  have hgt : p._return_to_vm_size < fl.mem_size := by
    rw [htarget, hcount]
    exact Nat.mul_lt_mul_of_pos_right hkn hs
  have hm : vm_steps d clock fl._list (k * s) 0 = k :=
    vm_steps_uniform d clock fl._list s k hsz hs (by omega) hclock
  have hbytes : chain_bytes (fl._list.take k) = k * s :=
    chain_bytes_take_uniform fl._list s k hsz (by omega)
  refine ⟨_, _, _, _, _, visit_free_list_detach p fl hsrc ht hgt hne,
    return_to_vm_returned _ _ d clock rfl ht hne, ?_⟩
  simp only [htarget, hm]
  have hafter : ∀ q : G1ReturnMemoryProcessor, q._return_to_vm_size = k * s →
      q._first = fl._list →
      vm_after q k = { q with _first := fl._list.drop k, _source := none,
                              _return_to_vm_size := 0 } := by
    intro q hq1 hq2
    simp [vm_after, hq1, hq2, hbytes]
  rw [hafter _ rfl rfl]
  refine ⟨rfl, by simp [finished_return_to_vm], ?_, ?_, ?_, rfl, ?_, ?_⟩
  · simp [G1SegmentedArrayFreeList.bulk_add]
  · simp [G1SegmentedArrayFreeList.bulk_add, List.length_take]
    omega
  · simp [G1SegmentedArrayFreeList.bulk_add, hbytes]
  · simp [List.length_drop, hlen]
  · simp [chain_bytes_drop_uniform fl._list s k hsz, hlen]

/-- Witness for C1 (amended) on the scenario of the claim: 5 segments of 10 bytes,
target 20. -/
theorem C1_retains_target_witness :
    ∃ p1 fl1 ret p2 fl2,
      visit_free_list (G1ReturnMemoryProcessor.create 20)
          (free_list_of 1 (uniform_chain 100 10 5)) = .returned () p1 fl1 ∧
        return_to_vm p1 fl1 0 (clock_before 0) = .returned ret p2 fl2 ∧
        ret.result = false ∧ finished_return_to_vm p2 = true ∧
        fl2._list = (free_list_of 1 (uniform_chain 100 10 5))._list.take 2 ∧
        fl2._list.length = 2 ∧ chain_bytes fl2._list = 2 * 10 ∧
        p2._first = (free_list_of 1 (uniform_chain 100 10 5))._list.drop 2 ∧
        p2._first.length = 5 - 2 ∧ chain_bytes p2._first = (5 - 2) * 10 :=
  C1_retains_target (free_list_of 1 (uniform_chain 100 10 5))
    (G1ReturnMemoryProcessor.create 20) 5 10 2 0 (clock_before 0)
    (by decide) (by decide) (by decide) (by decide) rfl (by decide) (by decide)
    (by decide) (fun _ => le_refl _)

/-- C2, as stated, fails: with 5 segments of 10 bytes (50 bytes) and a target of 60,
`visit_free_list` detaches nothing. The free list keeps all 5 segments, the processor
has no detached chain, and `return_to_vm` and `return_to_os` both stop at an entry
assertion, so nothing is destroyed. -/
theorem C2_counterexample :
    ∃ p1 fl1,
      visit_free_list (G1ReturnMemoryProcessor.create 60)
          (free_list_of 1 (uniform_chain 100 10 5)) = .returned () p1 fl1 ∧
        fl1._list = uniform_chain 100 10 5 ∧ fl1._list.length = 5 ∧ p1._first = [] ∧
        return_to_vm p1 fl1 0 (clock_before 0) = .stopped .already_returned_to_vm p1 fl1 ∧
        return_to_os p1 fl1 0 (clock_before 0) = .stopped .already_returned_to_os p1 fl1 ∧
        ¬ (fl1._list.length = 0) :=
  ⟨_, _, rfl, by decide⟩

/-- C2, amended: for every non-empty free list and every idle processor whose
`_return_to_vm_size` is strictly greater than the list's size, `visit_free_list`
detaches nothing: the free list is unchanged and keeps its whole chain, the processor
is reset (no source, target 0, no detached chain) with both phases finished, and
`return_to_vm` and `return_to_os` then stop at an entry assertion without destroying
anything. -/
theorem C2_target_above_size (p : G1ReturnMemoryProcessor) (fl : G1SegmentedArrayFreeList)
    (d : Int) (clock : Nat → Int)
    (hsrc : p._source = none) (hfirst : p._first = []) (hne : fl._list ≠ [])
    (hgt : fl.mem_size < p._return_to_vm_size) :
    ∃ p1,
      visit_free_list p fl = .returned () p1 fl ∧
        fl._list ≠ [] ∧
        p1 = { p with _source := none, _return_to_vm_size := 0 } ∧ p1._first = [] ∧
        finished_return_to_vm p1 = true ∧ finished_return_to_os p1 = true ∧
        return_to_vm p1 fl d clock = .stopped .already_returned_to_vm p1 fl ∧
        return_to_os p1 fl d clock = .stopped .already_returned_to_os p1 fl := by
  refine ⟨_, visit_free_list_keep p fl hsrc hfirst (Nat.le_of_lt hgt), hne, rfl, hfirst, ?_, ?_,
    ?_, ?_⟩
  · simp [finished_return_to_vm]
  · simp [finished_return_to_os, hfirst]
  · simp [return_to_vm, finished_return_to_vm]
  · simp [return_to_os, finished_return_to_vm, finished_return_to_os, hfirst]

/-- Witness for C2 (amended): 5 segments of 10 bytes, target 60. -/
theorem C2_target_above_size_witness :
    ∃ p1,
      visit_free_list (G1ReturnMemoryProcessor.create 60)
          (free_list_of 1 (uniform_chain 100 10 5)) =
          .returned () p1 (free_list_of 1 (uniform_chain 100 10 5)) ∧
        (free_list_of 1 (uniform_chain 100 10 5))._list ≠ [] ∧
        p1 = { G1ReturnMemoryProcessor.create 60 with _source := none, _return_to_vm_size := 0 } ∧
        p1._first = [] ∧
        finished_return_to_vm p1 = true ∧ finished_return_to_os p1 = true ∧
        return_to_vm p1 (free_list_of 1 (uniform_chain 100 10 5)) 0 (clock_before 0) =
          .stopped .already_returned_to_vm p1 (free_list_of 1 (uniform_chain 100 10 5)) ∧
        return_to_os p1 (free_list_of 1 (uniform_chain 100 10 5)) 0 (clock_before 0) =
          .stopped .already_returned_to_os p1 (free_list_of 1 (uniform_chain 100 10 5)) :=
  C2_target_above_size (G1ReturnMemoryProcessor.create 60)
    (free_list_of 1 (uniform_chain 100 10 5)) 0 (clock_before 0) rfl rfl (by decide) (by decide)

/-! ## A deadline that is already past -/

/-- C3, as stated, fails: with every clock reading past the deadline, `return_to_vm`
on a processor with a pending VM phase and five detached segments still walks one
segment. That segment is re-added to the free list, the detached chain shrinks to four
segments and `_return_to_vm_size` drops from 20 to 10. -/
theorem C3_counterexample :
    (∀ i, clock_past 0 i > 0) ∧ finished_return_to_vm pending_processor = false ∧
      pending_processor._first ≠ [] ∧
      return_to_vm pending_processor (free_list_of 1 []) 0 (clock_past 0) =
        .returned { result := true, clock_reads := 1 }
          { pending_processor with _first := uniform_chain 101 10 4, _return_to_vm_size := 10 }
          (free_list_of 1 (uniform_chain 100 10 1)) ∧
      ¬ (∃ ret, return_to_vm pending_processor (free_list_of 1 []) 0 (clock_past 0) =
          .returned ret pending_processor (free_list_of 1 [])) := by
  refine ⟨fun i => by simp [clock_past], by decide, by decide, rfl, ?_⟩
  rintro ⟨ret, h⟩
  have h2 : return_to_vm pending_processor (free_list_of 1 []) 0 (clock_past 0) =
        .returned { result := true, clock_reads := 1 }
          { pending_processor with _first := uniform_chain 101 10 4, _return_to_vm_size := 10 }
          (free_list_of 1 (uniform_chain 100 10 1)) := rfl
  rw [h2] at h
  revert h
  simp [pending_processor, free_list_of, uniform_chain]

/-- With a first reading past the deadline the loop of `return_to_vm` walks exactly one
segment. -/
theorem vm_steps_past (d : Int) (clock : Nat → Int) (s : G1SegmentedArraySegment) (t : Chain)
    (r : Nat) (hr : 0 < r) (hclock : clock 0 > d) : vm_steps d clock (s :: t) r 0 = 1 := by
  simp [vm_steps, hr, hclock]

/-- C3, amended: for every processor with a source, a positive remaining target and a
non-empty detached chain `s :: rest`, if every clock reading exceeds the deadline then
`return_to_vm` walks exactly one segment: it takes one reading, re-adds `s` to the head
of the free list, leaves `rest` as the detached chain, lowers `_return_to_vm_size` by
`min` of itself and the size of `s`, and returns true ("not finished") exactly when
target remains and `rest` is non-empty; otherwise the target is reset to 0. -/
theorem C3_deadline_past_one_segment (p : G1ReturnMemoryProcessor)
    (fl : G1SegmentedArrayFreeList) (d : Int) (clock : Nat → Int)
    (s : G1SegmentedArraySegment) (rest : Chain)
    (hfirst : p._first = s :: rest) (hs : p._source.isSome = true)
    (hr : 0 < p._return_to_vm_size) (hclock : ∀ i, clock i > d) :
    ∃ ret p2 fl2,
      return_to_vm p fl d clock = .returned ret p2 fl2 ∧
        ret.clock_reads = 1 ∧ fl2._list = s :: fl._list ∧ p2._first = rest ∧
        (ret.result = true ↔ s.mem_size < p._return_to_vm_size ∧ rest ≠ []) ∧
        p2._return_to_vm_size =
          (if s.mem_size < p._return_to_vm_size ∧ rest ≠ [] then
            p._return_to_vm_size - min p._return_to_vm_size s.mem_size else 0) := by
  have hf : p._first ≠ [] := by simp [hfirst]
  have hm : vm_steps d clock p._first p._return_to_vm_size 0 = 1 := by
    rw [hfirst]
    exact vm_steps_past d clock s rest _ hr (hclock 0)
  refine ⟨_, _, _, return_to_vm_returned p fl d clock hs hr hf, ?_⟩
  simp only [hm]
  by_cases hc : s.mem_size < p._return_to_vm_size ∧ rest ≠ []
  · have h1 : ¬ (p._return_to_vm_size - s.mem_size = 0) := by omega
    have h2 : rest ≠ [] := hc.2
    simp [vm_after, hfirst, chain_bytes, G1SegmentedArrayFreeList.bulk_add, hc, h1, h2, hs,
      sub_min_eq]
  · have h3 : p._return_to_vm_size - s.mem_size = 0 ∨ rest = [] := by
      by_cases h4 : rest = []
      · exact Or.inr h4
      · left
        have : ¬ (s.mem_size < p._return_to_vm_size) := fun h5 => hc ⟨h5, h4⟩
        omega
    simp [vm_after, hfirst, chain_bytes, G1SegmentedArrayFreeList.bulk_add, hc, h3]

/-- Witness for C3 (amended): five detached segments of 10 bytes, 20 bytes of target
left, deadline 0 and a clock that always reads 1. -/
theorem C3_deadline_past_one_segment_witness :
    ∃ ret p2 fl2,
      return_to_vm pending_processor (free_list_of 1 []) 0 (clock_past 0) =
          .returned ret p2 fl2 ∧
        ret.clock_reads = 1 ∧
        fl2._list = { addr := 100, mem_size := 10 } :: (free_list_of 1 [])._list ∧
        p2._first = uniform_chain 101 10 4 ∧
        (ret.result = true ↔
          ({ addr := 100, mem_size := 10 } : G1SegmentedArraySegment).mem_size <
              pending_processor._return_to_vm_size ∧ uniform_chain 101 10 4 ≠ []) ∧
        p2._return_to_vm_size =
          (if ({ addr := 100, mem_size := 10 } : G1SegmentedArraySegment).mem_size <
              pending_processor._return_to_vm_size ∧ uniform_chain 101 10 4 ≠ [] then
            pending_processor._return_to_vm_size -
              min pending_processor._return_to_vm_size
                ({ addr := 100, mem_size := 10 } : G1SegmentedArraySegment).mem_size
           else 0) :=
  C3_deadline_past_one_segment pending_processor (free_list_of 1 []) 0 (clock_past 0)
    { addr := 100, mem_size := 10 } (uniform_chain 101 10 4) rfl rfl (by decide)
    (fun i => by simp [clock_past])

/-! ## Which segments are kept -/

/-- C4: for every free list with a non-empty chain whose size exceeds a positive target,
`visit_free_list` followed by a `return_to_vm` call with no deadline expiry re-adds to
the free list exactly the first `m` segments of the detached chain, where `m` is the
least length whose byte sum reaches the target (or the whole chain when its byte sum is
below the target); the detached chain left for `return_to_os` is the rest of the chain,
and `_return_to_vm_size` ends at 0. -/
theorem C4_kept_is_shortest_reaching_target (p : G1ReturnMemoryProcessor)
    (fl : G1SegmentedArrayFreeList) (d : Int) (clock : Nat → Int)
    (hsrc : p._source = none) (ht : 0 < p._return_to_vm_size)
    (hgt : p._return_to_vm_size < fl.mem_size) (hne : fl._list ≠ [])
    (hclock : ∀ i, clock i ≤ d) :
    ∃ m p1 fl1 ret p2 fl2,
      visit_free_list p fl = .returned () p1 fl1 ∧ p1._first = fl._list ∧ fl1._list = [] ∧
        return_to_vm p1 fl1 d clock = .returned ret p2 fl2 ∧
        m ≤ fl._list.length ∧
        fl2._list = fl._list.take m ∧ p2._first = fl._list.drop m ∧
        p2._return_to_vm_size = 0 ∧
        ((p._return_to_vm_size ≤ chain_bytes (fl._list.take m) ∧
            ∀ j, j < m → chain_bytes (fl._list.take j) < p._return_to_vm_size) ∨
          (m = fl._list.length ∧ chain_bytes fl._list < p._return_to_vm_size)) := by
  refine ⟨vm_steps d clock fl._list p._return_to_vm_size 0, _, _, _, _, _,
    visit_free_list_detach p fl hsrc ht hgt hne, rfl, rfl,
    return_to_vm_returned _ _ d clock rfl ht hne,
    vm_steps_le_length d clock fl._list _ 0, ?_, ?_, ?_, ?_⟩
  · simp [G1SegmentedArrayFreeList.bulk_add]
  · simp only [vm_after]
    split_ifs <;> rfl
  · have hx := vm_steps_no_expiry d clock fl._list p._return_to_vm_size 0 hclock
    simp only [vm_after]
    split_ifs with h
    · rfl
    · exfalso
      apply h
      rcases hx with hx | hx
      · right
        simp only [hx]
        simp
      · left
        show p._return_to_vm_size - chain_bytes (fl._list.take _) = 0
        omega
  · rcases vm_steps_no_expiry d clock fl._list p._return_to_vm_size 0 hclock with hx | hx
    · by_cases hb : p._return_to_vm_size ≤ chain_bytes fl._list
      · left
        refine ⟨?_, fun j hj => vm_steps_bytes_lt d clock fl._list _ 0 j hj⟩
        rw [hx, List.take_length]
        exact hb
      · right
        exact ⟨hx, by omega⟩
    · left
      exact ⟨hx, fun j hj => vm_steps_bytes_lt d clock fl._list _ 0 j hj⟩

/-- Witness for C4: segments of 10, 20, 30 and 40 bytes with a target of 25 bytes; the
first two segments are kept. -/
theorem C4_kept_is_shortest_reaching_target_witness :
    ∃ m p1 fl1 ret p2 fl2,
      visit_free_list (G1ReturnMemoryProcessor.create 25) (free_list_of 1 mixed_chain) =
          .returned () p1 fl1 ∧
        p1._first = (free_list_of 1 mixed_chain)._list ∧ fl1._list = [] ∧
        return_to_vm p1 fl1 0 (clock_before 0) = .returned ret p2 fl2 ∧
        m ≤ (free_list_of 1 mixed_chain)._list.length ∧
        fl2._list = (free_list_of 1 mixed_chain)._list.take m ∧
        p2._first = (free_list_of 1 mixed_chain)._list.drop m ∧
        p2._return_to_vm_size = 0 ∧
        (((G1ReturnMemoryProcessor.create 25)._return_to_vm_size ≤
              chain_bytes ((free_list_of 1 mixed_chain)._list.take m) ∧
            ∀ j, j < m → chain_bytes ((free_list_of 1 mixed_chain)._list.take j) <
              (G1ReturnMemoryProcessor.create 25)._return_to_vm_size) ∨
          (m = (free_list_of 1 mixed_chain)._list.length ∧
            chain_bytes (free_list_of 1 mixed_chain)._list <
              (G1ReturnMemoryProcessor.create 25)._return_to_vm_size)) :=
  C4_kept_is_shortest_reaching_target (G1ReturnMemoryProcessor.create 25)
    (free_list_of 1 mixed_chain) 0 (clock_before 0) rfl (by decide) (by decide) (by decide)
    (fun _ => le_refl _)

/-! ## Shape of the state after a call -/

/-- The four ways through `visit_free_list`. -/
theorem visit_free_list_eq (p : G1ReturnMemoryProcessor) (fl : G1SegmentedArrayFreeList) :
    visit_free_list p fl =
      if p._source.isSome then .stopped .already_visited p fl
      else if p._return_to_vm_size < fl.mem_size then
        .returned ()
          (visit_reset
            { p with _source := if 0 < p._return_to_vm_size then some fl.addr else p._source,
                     _first := fl._list, _num_unlinked := fl._num_segments,
                     _unlinked_bytes := fl._mem_size })
          { fl with _list := [], _num_segments := 0, _mem_size := 0 }
      else if p._first = [] then
        .returned () { p with _source := none, _return_to_vm_size := 0 } fl
      else
        .stopped .visit_first_must_be_null
          { p with _source := if 0 < p._return_to_vm_size then some fl.addr else p._source } fl := by
  unfold visit_free_list
  by_cases hs : p._source.isSome = true
  · simp [hs]
  · by_cases h0 : 0 < p._return_to_vm_size
    · have hz : p._return_to_vm_size ≠ 0 := by omega
      by_cases hg : p._return_to_vm_size < fl.mem_size
      · simp [hs, h0, hz, hg, G1SegmentedArrayFreeList.get_all]
      · by_cases he : p._first = []
        · simp [hs, h0, hz, hg, he, visit_reset]
        · simp [hs, h0, hz, hg, he]
    · have hz : p._return_to_vm_size = 0 := by omega
      by_cases hg : 0 < fl.mem_size
      · simp [hs, hz, hg, G1SegmentedArrayFreeList.get_all]
      · by_cases he : p._first = []
        · simp [hs, hz, hg, he, visit_reset]
        · cases p
          simp_all

theorem visit_reset_first (p : G1ReturnMemoryProcessor) : (visit_reset p)._first = p._first := by
  unfold visit_reset
  split_ifs <;> rfl

/-- A returning `visit_free_list` either leaves both chains alone or hands the whole
chain of the free list to the processor. -/
theorem visit_free_list_shape (p p1 : G1ReturnMemoryProcessor)
    (fl fl1 : G1SegmentedArrayFreeList) (h : visit_free_list p fl = .returned () p1 fl1) :
    (fl1 = fl ∧ p1._first = p._first ∧ p._first = []) ∨
      (fl1._list = [] ∧ p1._first = fl._list) := by
  rw [visit_free_list_eq] at h
  by_cases h1 : p._source.isSome = true
  · simp [h1] at h
  · by_cases h2 : p._return_to_vm_size < fl.mem_size
    · simp only [h1, h2, if_true, if_false, Bool.false_eq_true, Outcome.returned.injEq,
        true_and] at h
      obtain ⟨hp, hf⟩ := h
      subst hp hf
      right
      exact ⟨rfl, by rw [visit_reset_first]⟩
    · by_cases h3 : p._first = []
      · simp only [h1, h2, h3, if_true, if_false, Bool.false_eq_true, Outcome.returned.injEq,
          true_and] at h
        obtain ⟨hp, hf⟩ := h
        subst hp hf
        left
        exact ⟨rfl, h3.symm, h3⟩
      · simp [h1, h2, h3] at h

/-- A returning `return_to_vm` moved the first `m` segments of the detached chain to the
head of the free list, for the `m` computed by its loop, and took `m` readings. -/
theorem return_to_vm_shape (p p1 : G1ReturnMemoryProcessor) (fl fl1 : G1SegmentedArrayFreeList)
    (d : Int) (clock : Nat → Int) (ret : VmReturn)
    (h : return_to_vm p fl d clock = .returned ret p1 fl1) :
    ret.clock_reads = vm_steps d clock p._first p._return_to_vm_size 0 ∧
      fl1._list = p._first.take (vm_steps d clock p._first p._return_to_vm_size 0) ++ fl._list ∧
      p1._first = p._first.drop (vm_steps d clock p._first p._return_to_vm_size 0) ∧
      p1 = vm_after p (vm_steps d clock p._first p._return_to_vm_size 0) ∧
      ret.result = p1._source.isSome ∧ fl1.addr = fl.addr := by
  obtain ⟨hs, hr, hf⟩ := return_to_vm_returned_pre p fl d clock ret p1 fl1 h
  rw [return_to_vm_returned p fl d clock hs hr hf] at h
  simp only [Outcome.returned.injEq] at h
  obtain ⟨h1, h2, h3⟩ := h
  subst h1 h2 h3
  refine ⟨rfl, by simp [G1SegmentedArrayFreeList.bulk_add], ?_, rfl, rfl,
    by simp [G1SegmentedArrayFreeList.bulk_add]⟩
  simp only [vm_after]
  split_ifs <;> rfl

/-- A returning `return_to_os` deleted the first `m` segments of the detached chain, for
the `m` computed by its loop, took `m` readings and left the free list alone. -/
theorem return_to_os_shape (p p1 : G1ReturnMemoryProcessor) (fl fl1 : G1SegmentedArrayFreeList)
    (d : Int) (clock : Nat → Int) (ret : OsReturn)
    (h : return_to_os p fl d clock = .returned ret p1 fl1) :
    ret.clock_reads = os_steps d clock p._first 0 ∧
      ret.deleted = p._first.take (os_steps d clock p._first 0) ∧
      p1 = { p with _first := p._first.drop (os_steps d clock p._first 0) } ∧
      ret.result = !p1._first.isEmpty ∧ fl1 = fl := by
  obtain ⟨hv, hf⟩ := return_to_os_returned_pre p fl d clock ret p1 fl1 h
  rw [return_to_os_returned p fl d clock hv hf] at h
  simp only [Outcome.returned.injEq] at h
  obtain ⟨h1, h2, h3⟩ := h
  subst h1 h2 h3
  exact ⟨rfl, rfl, rfl, rfl, rfl⟩

theorem chain_bytes_take_add_drop (c : Chain) (m : Nat) :
    chain_bytes (c.take m) + chain_bytes (c.drop m) = chain_bytes c := by
  rw [← chain_bytes_append, List.take_append_drop]

/-! ## Conservation of bytes -/

/-- C5: conservation of bytes. A returning `visit_free_list` on a processor with no
outstanding detached chain, and every returning `return_to_vm`, leave the byte sum of
the free list's chain plus the byte sum of the detached chain unchanged; a returning
`return_to_os` leaves the free list unchanged and lowers the byte sum of the detached
chain by exactly the byte sum of the segments it deleted in that call. -/
theorem C5_bytes_conserved :
    (∀ (p p1 : G1ReturnMemoryProcessor) (fl fl1 : G1SegmentedArrayFreeList),
        p._first = [] → visit_free_list p fl = .returned () p1 fl1 →
        chain_bytes fl1._list + chain_bytes p1._first =
          chain_bytes fl._list + chain_bytes p._first) ∧
      (∀ (p p1 : G1ReturnMemoryProcessor) (fl fl1 : G1SegmentedArrayFreeList) (d : Int)
          (clock : Nat → Int) (ret : VmReturn),
        return_to_vm p fl d clock = .returned ret p1 fl1 →
        chain_bytes fl1._list + chain_bytes p1._first =
          chain_bytes fl._list + chain_bytes p._first) ∧
      (∀ (p p1 : G1ReturnMemoryProcessor) (fl fl1 : G1SegmentedArrayFreeList) (d : Int)
          (clock : Nat → Int) (ret : OsReturn),
        return_to_os p fl d clock = .returned ret p1 fl1 →
        fl1 = fl ∧ chain_bytes p1._first + chain_bytes ret.deleted = chain_bytes p._first) := by
  refine ⟨?_, ?_, ?_⟩
  · intro p p1 fl fl1 hidle h
    rcases visit_free_list_shape p p1 fl fl1 h with ⟨h1, h2, _⟩ | ⟨h1, h2⟩
    · rw [h1, h2]
    · rw [h1, h2, hidle]
      simp [chain_bytes]
  · intro p p1 fl fl1 d clock ret h
    obtain ⟨_, h2, h3, _⟩ := return_to_vm_shape p p1 fl fl1 d clock ret h
    rw [h2, h3, chain_bytes_append]
    have := chain_bytes_take_add_drop p._first (vm_steps d clock p._first p._return_to_vm_size 0)
    omega
  · intro p p1 fl fl1 d clock ret h
    obtain ⟨_, h2, h3, _, h5⟩ := return_to_os_shape p p1 fl fl1 d clock ret h
    refine ⟨h5, ?_⟩
    rw [h2, h3]
    have := chain_bytes_take_add_drop p._first (os_steps d clock p._first 0)
    simp only
    omega

/-- Witness for C5: 5 segments of 10 bytes and a target of 20; the visit, the VM phase
and the OS phase each keep the byte total. -/
theorem C5_bytes_conserved_witness :
    (chain_bytes (free_list_of 1 [])._list + chain_bytes pending_processor._first =
        chain_bytes (free_list_of 1 (uniform_chain 100 10 5))._list +
          chain_bytes (G1ReturnMemoryProcessor.create 20)._first) ∧
      (chain_bytes (free_list_of 1 (uniform_chain 100 10 2))._list +
          chain_bytes drained_processor._first =
        chain_bytes (free_list_of 1 [])._list + chain_bytes pending_processor._first) ∧
      (free_list_of 1 (uniform_chain 100 10 2) = free_list_of 1 (uniform_chain 100 10 2) ∧
        chain_bytes ({ drained_processor with _first := [] } : G1ReturnMemoryProcessor)._first +
            chain_bytes
              ({ result := false, deleted := uniform_chain 102 10 3, clock_reads := 3 } :
                OsReturn).deleted =
          chain_bytes drained_processor._first) :=
  ⟨C5_bytes_conserved.1 (G1ReturnMemoryProcessor.create 20) pending_processor
      (free_list_of 1 (uniform_chain 100 10 5)) (free_list_of 1 []) rfl rfl,
    C5_bytes_conserved.2.1 pending_processor drained_processor (free_list_of 1 [])
      (free_list_of 1 (uniform_chain 100 10 2)) 0 (clock_before 0)
      { result := false, clock_reads := 2 } rfl,
    C5_bytes_conserved.2.2 drained_processor { drained_processor with _first := [] }
      (free_list_of 1 (uniform_chain 100 10 2)) (free_list_of 1 (uniform_chain 100 10 2))
      0 (clock_before 0)
      { result := false, deleted := uniform_chain 102 10 3, clock_reads := 3 } rfl⟩

/-! ## No double ownership -/

theorem step_addrs_nodup (w w1 : World) (c : Call) (h : step w c = some w1)
    (hn : w.addrs.Nodup) : w1.addrs.Nodup := by
  cases c with
  | visit =>
    simp only [step] at h
    cases hv : visit_free_list w.proc w.free_list with
    | stopped s p fl => simp [hv] at h
    | returned r p fl =>
      simp only [hv, Option.some.injEq] at h
      subst h
      rcases visit_free_list_shape _ _ _ _ hv with ⟨h1, h2, _⟩ | ⟨h1, h2⟩
      · simpa [World.addrs, h1, h2] using hn
      · have hsub : List.Sublist (w.free_list._list ++ w.destroyed)
            (w.free_list._list ++ w.proc._first ++ w.destroyed) := by
          rw [List.append_assoc]
          exact List.Sublist.append_left (List.sublist_append_right _ _) _
        have := (hsub.map (fun s : G1SegmentedArraySegment => s.addr)).nodup hn
        simpa [World.addrs, chain_addrs, h1, h2] using this
  | to_vm d clock =>
    simp only [step] at h
    cases hv : return_to_vm w.proc w.free_list d clock with
    | stopped s p fl => simp [hv] at h
    | returned r p fl =>
      simp only [hv, Option.some.injEq] at h
      subst h
      obtain ⟨_, h2, h3, _⟩ := return_to_vm_shape _ _ _ _ d clock r hv
      have hperm : List.Perm
          (fl._list ++ p._first ++ w.destroyed)
          (w.free_list._list ++ w.proc._first ++ w.destroyed) := by
        rw [h2, h3]
        refine List.Perm.append_right _ ?_
        have e : w.free_list._list ++ w.proc._first =
            w.free_list._list ++
              (w.proc._first.take (vm_steps d clock w.proc._first w.proc._return_to_vm_size 0) ++
               w.proc._first.drop (vm_steps d clock w.proc._first w.proc._return_to_vm_size 0)) := by
          rw [List.take_append_drop]
        rw [e, ← List.append_assoc]
        exact List.Perm.append_right _ List.perm_append_comm
      exact ((hperm.map (fun s : G1SegmentedArraySegment => s.addr)).nodup_iff).mpr hn
  | to_os d clock =>
    simp only [step] at h
    cases hv : return_to_os w.proc w.free_list d clock with
    | stopped s p fl => simp [hv] at h
    | returned r p fl =>
      simp only [hv, Option.some.injEq] at h
      subst h
      obtain ⟨_, h2, h3, _, h5⟩ := return_to_os_shape _ _ _ _ d clock r hv
      have hperm : List.Perm
          (fl._list ++ p._first ++ (w.destroyed ++ r.deleted))
          (w.free_list._list ++ w.proc._first ++ w.destroyed) := by
        rw [h2, h3, h5]
        simp only [List.append_assoc]
        refine List.Perm.append_left _ ?_
        have e : w.proc._first ++ w.destroyed =
            (w.proc._first.take (os_steps d clock w.proc._first 0) ++
               w.proc._first.drop (os_steps d clock w.proc._first 0)) ++ w.destroyed := by
          rw [List.take_append_drop]
        rw [e, ← List.append_assoc, List.append_assoc _ _ w.destroyed]
        exact List.perm_append_comm
      exact ((hperm.map (fun s : G1SegmentedArraySegment => s.addr)).nodup_iff).mpr hn

theorem run_addrs_nodup (calls : List Call) (w w1 : World) (h : run w calls = some w1)
    (hn : w.addrs.Nodup) : w1.addrs.Nodup := by
  induction calls generalizing w with
  | nil =>
    simp only [run, Option.some.injEq] at h
    subst h
    exact hn
  | cons c cs ih =>
    simp only [run] at h
    cases hs : step w c with
    | none => simp [hs] at h
    | some w2 =>
      simp only [hs] at h
      exact ih w2 h (step_addrs_nodup w w2 c hs hn)

/-- C6: no double ownership. Start from a free list whose segments are pairwise distinct
and a newly constructed processor, and perform any sequence of `visit_free_list`,
`return_to_vm` and `return_to_os` calls none of which stops at an assertion. Then no
segment is both in the free list and in the detached chain, no segment occurs twice in
either, and no segment deleted by `return_to_os` occurs in either. -/
theorem C6_no_double_ownership (fl : G1SegmentedArrayFreeList) (target : Nat)
    (calls : List Call) (w : World)
    (hdistinct : (chain_addrs fl._list).Nodup)
    (hrun : run (World.initial target fl) calls = some w) :
    (chain_addrs w.free_list._list).Nodup ∧ (chain_addrs w.proc._first).Nodup ∧
      (∀ a, a ∈ chain_addrs w.free_list._list → a ∉ chain_addrs w.proc._first) ∧
      (∀ a, a ∈ chain_addrs w.destroyed →
        a ∉ chain_addrs w.free_list._list ∧ a ∉ chain_addrs w.proc._first) := by
  have h0 : (World.initial target fl).addrs.Nodup := by
    simpa [World.addrs, World.initial, G1ReturnMemoryProcessor.create, chain_addrs]
      using hdistinct
  have hn := run_addrs_nodup calls _ w hrun h0
  simp only [World.addrs, chain_addrs, List.map_append] at hn
  rw [List.nodup_append] at hn
  obtain ⟨h12, _, hd3⟩ := hn
  rw [List.nodup_append] at h12
  obtain ⟨h1, h2, hd12⟩ := h12
  refine ⟨h1, h2, fun a ha hb => hd12 ha hb, fun a ha => ⟨fun hb => ?_, fun hb => ?_⟩⟩
  · exact hd3 (List.mem_append_left _ hb) ha
  · exact hd3 (List.mem_append_right _ hb) ha

/-- Witness for C6: five distinct segments, target 20, and the calls of `sliced_cycle`. -/
theorem C6_no_double_ownership_witness :
    (chain_addrs sliced_cycle_end.free_list._list).Nodup ∧
      (chain_addrs sliced_cycle_end.proc._first).Nodup ∧
      (∀ a, a ∈ chain_addrs sliced_cycle_end.free_list._list →
        a ∉ chain_addrs sliced_cycle_end.proc._first) ∧
      (∀ a, a ∈ chain_addrs sliced_cycle_end.destroyed →
        a ∉ chain_addrs sliced_cycle_end.free_list._list ∧
          a ∉ chain_addrs sliced_cycle_end.proc._first) :=
  C6_no_double_ownership (free_list_of 1 (uniform_chain 100 10 5)) 20 sliced_cycle
    sliced_cycle_end (by decide) rfl

/-! ## Deadline respect -/

theorem readings_within_ge (d : Int) (clock : Nat → Int) (m : Nat)
    (h : ∀ j, j + 1 < m → clock j ≤ d) : m ≤ 1 + readings_within d clock m := by
  cases m with
  | zero => omega
  | succ n =>
    have hall : (List.range n).filter (fun j => decide (clock j ≤ d)) = List.range n := by
      rw [List.filter_eq_self]
      intro j hj
      have hj2 : j < n := List.mem_range.mp hj
      simpa using h j (by omega)
    unfold readings_within
    rw [List.range_succ, List.filter_append, hall, List.length_append, List.length_range]
    omega

/-- C7: deadline respect. In every returning call of `return_to_vm` or `return_to_os`,
with any clock, the call processes the first `m` segments of the detached chain (keeps
them, or deletes them) and takes `m` readings, one after each segment. Every reading
but the last was within the deadline, so a segment other than the first is processed
only if the reading taken right after the previous segment was within the deadline; a
reading past the deadline is the last one of the call; and `m` is at most one more
than the number of readings within the deadline. -/
theorem C7_deadline_respect :
    (∀ (p p1 : G1ReturnMemoryProcessor) (fl fl1 : G1SegmentedArrayFreeList) (d : Int)
        (clock : Nat → Int) (ret : VmReturn),
      return_to_vm p fl d clock = .returned ret p1 fl1 →
      ∃ m, m ≤ p._first.length ∧ ret.clock_reads = m ∧
        fl1._list = p._first.take m ++ fl._list ∧ p1._first = p._first.drop m ∧
        (∀ j, j + 1 < m → clock j ≤ d) ∧
        (∀ j, j < m → d < clock j → j + 1 = m) ∧
        m ≤ 1 + readings_within d clock m) ∧
    (∀ (p p1 : G1ReturnMemoryProcessor) (fl fl1 : G1SegmentedArrayFreeList) (d : Int)
        (clock : Nat → Int) (ret : OsReturn),
      return_to_os p fl d clock = .returned ret p1 fl1 →
      ∃ m, m ≤ p._first.length ∧ ret.clock_reads = m ∧
        ret.deleted = p._first.take m ∧ p1._first = p._first.drop m ∧
        (∀ j, j + 1 < m → clock j ≤ d) ∧
        (∀ j, j < m → d < clock j → j + 1 = m) ∧
        m ≤ 1 + readings_within d clock m) := by
  constructor
  · intro p p1 fl fl1 d clock ret h
    obtain ⟨h1, h2, h3, _⟩ := return_to_vm_shape p p1 fl fl1 d clock ret h
    have hr : ∀ j, j + 1 < vm_steps d clock p._first p._return_to_vm_size 0 → clock j ≤ d := by
      intro j hj
      have := vm_steps_readings d clock p._first p._return_to_vm_size 0 j hj
      simpa using this
    refine ⟨_, vm_steps_le_length d clock p._first _ 0, h1, h2, h3, hr, ?_,
      readings_within_ge d clock _ hr⟩
    intro j hj hlate
    by_contra hne
    exact absurd (hr j (by omega)) (not_le.mpr hlate)
  · intro p p1 fl fl1 d clock ret h
    obtain ⟨h1, h2, h3, _, _⟩ := return_to_os_shape p p1 fl fl1 d clock ret h
    have hr : ∀ j, j + 1 < os_steps d clock p._first 0 → clock j ≤ d := by
      intro j hj
      have := os_steps_readings d clock p._first 0 j hj
      simpa using this
    refine ⟨_, os_steps_le_length d clock p._first 0, h1, h2, by rw [h3], hr, ?_,
      readings_within_ge d clock _ hr⟩
    intro j hj hlate
    by_contra hne
    exact absurd (hr j (by omega)) (not_le.mpr hlate)

/-- Witness for C7: a clock that ticks once per reading. With deadline 1, `return_to_vm`
keeps three segments (readings 0, 1, 2); with deadline 0, `return_to_os` deletes two
segments (readings 0, 1). -/
theorem C7_deadline_respect_witness :
    (∃ m, m ≤ slow_processor._first.length ∧
        ({ result := true, clock_reads := 3 } : VmReturn).clock_reads = m ∧
        (free_list_of 1 (uniform_chain 100 10 3))._list =
          slow_processor._first.take m ++ (free_list_of 1 [])._list ∧
        ({ slow_processor with _first := uniform_chain 103 10 2, _return_to_vm_size := 70 } :
            G1ReturnMemoryProcessor)._first = slow_processor._first.drop m ∧
        (∀ j, j + 1 < m → ticking_clock j ≤ 1) ∧
        (∀ j, j < m → 1 < ticking_clock j → j + 1 = m) ∧
        m ≤ 1 + readings_within 1 ticking_clock m) ∧
    (∃ m, m ≤ drained_processor._first.length ∧
        ({ result := true, deleted := uniform_chain 102 10 2, clock_reads := 2 } :
            OsReturn).clock_reads = m ∧
        ({ result := true, deleted := uniform_chain 102 10 2, clock_reads := 2 } :
            OsReturn).deleted = drained_processor._first.take m ∧
        ({ drained_processor with _first := uniform_chain 104 10 1 } :
            G1ReturnMemoryProcessor)._first = drained_processor._first.drop m ∧
        (∀ j, j + 1 < m → ticking_clock j ≤ 0) ∧
        (∀ j, j < m → 0 < ticking_clock j → j + 1 = m) ∧
        m ≤ 1 + readings_within 0 ticking_clock m) :=
  ⟨C7_deadline_respect.1 slow_processor
      { slow_processor with _first := uniform_chain 103 10 2, _return_to_vm_size := 70 }
      (free_list_of 1 []) (free_list_of 1 (uniform_chain 100 10 3)) 1 ticking_clock
      { result := true, clock_reads := 3 } rfl,
    C7_deadline_respect.2 drained_processor
      { drained_processor with _first := uniform_chain 104 10 1 }
      (free_list_of 1 (uniform_chain 100 10 2)) (free_list_of 1 (uniform_chain 100 10 2))
      0 ticking_clock
      { result := true, deleted := uniform_chain 102 10 2, clock_reads := 2 } rfl⟩

/-! ## Contract violations -/

/-- C8, the code at the failing inputs: a second `visit_free_list` is not rejected while
a detached chain is outstanding. First, a processor with target 0 visits a list of one
segment and detaches it; one segment is then pushed onto the list; the second visit
returns normally and replaces the outstanding chain by the new one. Second, after a
completed VM phase that left three segments for `return_to_os`, a second visit of the
same free list returns normally and replaces those three segments by the two that had
been kept. -/
theorem C8_double_visit_not_rejected :
    (visit_free_list (G1ReturnMemoryProcessor.create 0)
          (free_list_of 1 [{ addr := 100, mem_size := 10 }]) =
        .returned () zero_target_visited (free_list_of 1 []) ∧
      finished_return_to_os zero_target_visited = false ∧
      visit_free_list zero_target_visited
          ((free_list_of 1 []).push { addr := 200, mem_size := 7 }) =
        .returned ()
          { zero_target_visited with _first := [{ addr := 200, mem_size := 7 }],
                                     _unlinked_bytes := 7, _num_unlinked := 1 }
          (free_list_of 1 [])) ∧
    (return_to_vm pending_processor (free_list_of 1 []) 0 (clock_before 0) =
        .returned { result := false, clock_reads := 2 } drained_processor
          (free_list_of 1 (uniform_chain 100 10 2)) ∧
      finished_return_to_os drained_processor = false ∧
      visit_free_list drained_processor (free_list_of 1 (uniform_chain 100 10 2)) =
        .returned ()
          { drained_processor with _first := uniform_chain 100 10 2,
                                   _unlinked_bytes := 20, _num_unlinked := 2 }
          (free_list_of 1 [])) :=
  ⟨⟨rfl, rfl, rfl⟩, rfl, rfl, rfl⟩

/-- What the first lines of `return_to_vm` and `return_to_os` do. `return_to_vm` stops
at the assertion of line 80 exactly when `finished_return_to_vm()` holds at entry, and
`return_to_os` stops at one of its two entry assertions exactly when
`finished_return_to_vm()` is false or `finished_return_to_os()` is true at entry; the
processor and the free list at the stop are those of the entry. On a newly constructed
processor both calls stop at an entry assertion. -/
theorem entry_assertion_stops (p : G1ReturnMemoryProcessor) (fl : G1SegmentedArrayFreeList)
    (d : Int) (clock : Nat → Int) (target : Nat) :
    ((∃ p1 fl1, return_to_vm p fl d clock = .stopped .already_returned_to_vm p1 fl1) ↔
        finished_return_to_vm p = true) ∧
      (return_to_vm p fl d clock = .stopped .already_returned_to_vm p fl ↔
        finished_return_to_vm p = true) ∧
      ((∃ s p1 fl1, return_to_os p fl d clock = .stopped s p1 fl1) ↔
        (finished_return_to_vm p = false ∨ finished_return_to_os p = true)) ∧
      ((return_to_os p fl d clock = .stopped .not_finished_return_to_vm p fl ∨
          return_to_os p fl d clock = .stopped .already_returned_to_os p fl) ↔
        (finished_return_to_vm p = false ∨ finished_return_to_os p = true)) ∧
      (return_to_vm (G1ReturnMemoryProcessor.create target) fl d clock =
          .stopped .already_returned_to_vm (G1ReturnMemoryProcessor.create target) fl ∨
        return_to_vm (G1ReturnMemoryProcessor.create target) fl d clock =
          .stopped .must_have_segment (G1ReturnMemoryProcessor.create target) fl) ∧
      (return_to_os (G1ReturnMemoryProcessor.create target) fl d clock =
          .stopped .not_finished_return_to_vm (G1ReturnMemoryProcessor.create target) fl ∨
        return_to_os (G1ReturnMemoryProcessor.create target) fl d clock =
          .stopped .already_returned_to_os (G1ReturnMemoryProcessor.create target) fl) := by
  have hvm : return_to_vm p fl d clock = .stopped .already_returned_to_vm p fl ↔
      finished_return_to_vm p = true := by
    constructor
    · intro h
      by_contra hf
      have hff : finished_return_to_vm p = false := by simpa using hf
      unfold return_to_vm at h
      rw [hff] at h
      simp only [Bool.false_eq_true, if_false] at h
      split_ifs at h <;> simp at h
    · intro hf
      simp [return_to_vm, hf]
  have hvm2 : (∃ p1 fl1, return_to_vm p fl d clock = .stopped .already_returned_to_vm p1 fl1) ↔
      finished_return_to_vm p = true := by
    constructor
    · rintro ⟨p1, fl1, h⟩
      by_contra hf
      have hff : finished_return_to_vm p = false := by simpa using hf
      unfold return_to_vm at h
      rw [hff] at h
      simp only [Bool.false_eq_true, if_false] at h
      split_ifs at h <;> simp at h
    · intro hf
      exact ⟨p, fl, hvm.mpr hf⟩
  have hos : (return_to_os p fl d clock = .stopped .not_finished_return_to_vm p fl ∨
      return_to_os p fl d clock = .stopped .already_returned_to_os p fl) ↔
      (finished_return_to_vm p = false ∨ finished_return_to_os p = true) := by
    constructor
    · intro h
      by_contra hc
      push_neg at hc
      obtain ⟨h1, h2⟩ := hc
      have h1t : finished_return_to_vm p = true := by simpa using h1
      have h2f : finished_return_to_os p = false := by simpa using h2
      rcases h with h | h <;> simp [return_to_os, h1t, h2f] at h
    · intro h
      by_cases h1 : finished_return_to_vm p = true
      · rcases h with h | h
        · simp [h1] at h
        · right
          simp [return_to_os, h1, h]
      · left
        have h1f : finished_return_to_vm p = false := by simpa using h1
        simp [return_to_os, h1f]
  have hos2 : (∃ s p1 fl1, return_to_os p fl d clock = .stopped s p1 fl1) ↔
      (finished_return_to_vm p = false ∨ finished_return_to_os p = true) := by
    constructor
    · rintro ⟨s, p1, fl1, h⟩
      by_contra hc
      push_neg at hc
      obtain ⟨h1, h2⟩ := hc
      have h1t : finished_return_to_vm p = true := by simpa using h1
      have h2f : finished_return_to_os p = false := by simpa using h2
      simp [return_to_os, h1t, h2f] at h
    · intro h
      rcases hos.mpr h with h3 | h3
      · exact ⟨_, _, _, h3⟩
      · exact ⟨_, _, _, h3⟩
  refine ⟨hvm2, hvm, hos2, hos, ?_, ?_⟩
  · by_cases ht : target = 0
    · left
      simp [return_to_vm, finished_return_to_vm, G1ReturnMemoryProcessor.create, ht]
    · right
      simp [return_to_vm, finished_return_to_vm, G1ReturnMemoryProcessor.create, ht]
  · by_cases ht : target = 0
    · right
      simp [return_to_os, finished_return_to_vm, finished_return_to_os,
        G1ReturnMemoryProcessor.create, ht]
    · left
      simp [return_to_os, finished_return_to_vm, G1ReturnMemoryProcessor.create, ht]

/-! ## Return values -/

/-- With no deadline expiry the loop of `return_to_os` deletes the whole chain. -/
theorem os_steps_no_expiry (d : Int) (clock : Nat → Int) (c : Chain) (i : Nat)
    (hclock : ∀ j, clock j ≤ d) : os_steps d clock c i = c.length := by
  rcases os_steps_exit d clock c i with h | h
  · exact h
  · exact absurd (hclock _) (not_le.mpr h.2)

/-- C10: return values report remaining work. A returning `return_to_vm` returns true
exactly when afterwards `_return_to_vm_size > 0` and the detached chain is non-empty,
which is exactly when `finished_return_to_vm()` is false afterwards; it returns false
exactly when the target it had at entry is covered by the segments it walked or the
detached chain is used up. A returning `return_to_os` returns true exactly when the
detached chain is non-empty afterwards, which is exactly when `finished_return_to_os()`
is false afterwards; with no deadline expiry it returns false and leaves the chain
empty. -/
theorem C10_return_values :
    (∀ (p p1 : G1ReturnMemoryProcessor) (fl fl1 : G1SegmentedArrayFreeList) (d : Int)
        (clock : Nat → Int) (ret : VmReturn),
      return_to_vm p fl d clock = .returned ret p1 fl1 →
      (ret.result = true ↔ 0 < p1._return_to_vm_size ∧ p1._first ≠ []) ∧
        (ret.result = true ↔ finished_return_to_vm p1 = false) ∧
        (ret.result = false ↔
          p._return_to_vm_size ≤ chain_bytes (p._first.take ret.clock_reads) ∨
            p1._first = [])) ∧
    (∀ (p p1 : G1ReturnMemoryProcessor) (fl fl1 : G1SegmentedArrayFreeList) (d : Int)
        (clock : Nat → Int) (ret : OsReturn),
      return_to_os p fl d clock = .returned ret p1 fl1 →
      (ret.result = true ↔ p1._first ≠ []) ∧
        (ret.result = true ↔ finished_return_to_os p1 = false) ∧
        ((∀ i, clock i ≤ d) → ret.result = false ∧ p1._first = [])) := by
  constructor
  · intro p p1 fl fl1 d clock ret h
    obtain ⟨hs, hr, hf⟩ := return_to_vm_returned_pre p fl d clock ret p1 fl1 h
    obtain ⟨h1, _, h3, h4, h5, _⟩ := return_to_vm_shape p p1 fl fl1 d clock ret h
    rw [h1]
    by_cases hc : p._return_to_vm_size -
        chain_bytes (p._first.take (vm_steps d clock p._first p._return_to_vm_size 0)) = 0 ∨
        (p._first.drop (vm_steps d clock p._first p._return_to_vm_size 0)).isEmpty = true
    · have hp1 : p1 = { p with
          _first := p._first.drop (vm_steps d clock p._first p._return_to_vm_size 0),
          _source := none, _return_to_vm_size := 0 } := by
        rw [h4, vm_after, if_pos hc]
      have hres : ret.result = false := by
        rw [h5, hp1]
        rfl
      have hsz : p1._return_to_vm_size = 0 := by rw [hp1]
      have hfin : finished_return_to_vm p1 = true := by
        rw [hp1]
        rfl
      refine ⟨?_, ?_, ?_⟩
      · simp [hres, hsz]
      · simp [hres, hfin]
      · simp only [hres, true_iff]
        rcases hc with hc | hc
        · left
          omega
        · right
          rw [h3]
          simpa using hc
    · have hp1 : p1 = { p with
          _first := p._first.drop (vm_steps d clock p._first p._return_to_vm_size 0),
          _return_to_vm_size := p._return_to_vm_size -
            chain_bytes (p._first.take (vm_steps d clock p._first p._return_to_vm_size 0)) } := by
        rw [h4, vm_after, if_neg hc]
      push_neg at hc
      obtain ⟨hc1, hc2⟩ := hc
      have hres : ret.result = true := by
        rw [h5, hp1]
        exact hs
      have hsz : 0 < p1._return_to_vm_size := by
        rw [hp1]
        show 0 < p._return_to_vm_size - _
        omega
      have hne : p1._first ≠ [] := by
        rw [h3]
        simpa using hc2
      have hfin : finished_return_to_vm p1 = false := by
        have hsrc : p1._source.isSome = true := by
          rw [hp1]
          exact hs
        cases hq : p1._source with
        | none => simp [hq] at hsrc
        | some a => simp [finished_return_to_vm, hq]
      refine ⟨?_, ?_, ?_⟩
      · simp [hres, hsz, hne]
      · simp [hres, hfin]
      · simp only [hres, Bool.true_eq_false, false_iff]
        push_neg
        exact ⟨by omega, hne⟩
  · intro p p1 fl fl1 d clock ret h
    obtain ⟨_, _, h3, h4, _⟩ := return_to_os_shape p p1 fl fl1 d clock ret h
    have hfirst : p1._first = p._first.drop (os_steps d clock p._first 0) := by rw [h3]
    refine ⟨?_, ?_, ?_⟩
    · rw [h4]
      cases p1._first <;> simp
    · rw [h4]
      simp [finished_return_to_os]
    · intro hclock
      have hm := os_steps_no_expiry d clock p._first 0 hclock
      have he : p1._first = [] := by
        rw [hfirst, hm]
        simp
      refine ⟨?_, he⟩
      rw [h4, he]
      rfl

/-- Witness for C10: a `return_to_vm` call cut short by the deadline returns true, and a
`return_to_os` call with time to spare returns false. -/
theorem C10_return_values_witness :
    ((({ result := true, clock_reads := 3 } : VmReturn).result = true ↔
          0 < ({ slow_processor with _first := uniform_chain 103 10 2,
                                      _return_to_vm_size := 70 } :
                G1ReturnMemoryProcessor)._return_to_vm_size ∧
            ({ slow_processor with _first := uniform_chain 103 10 2,
                                    _return_to_vm_size := 70 } :
                G1ReturnMemoryProcessor)._first ≠ []) ∧
        (({ result := true, clock_reads := 3 } : VmReturn).result = true ↔
          finished_return_to_vm
            { slow_processor with _first := uniform_chain 103 10 2,
                                  _return_to_vm_size := 70 } = false) ∧
        (({ result := true, clock_reads := 3 } : VmReturn).result = false ↔
          slow_processor._return_to_vm_size ≤
              chain_bytes (slow_processor._first.take
                ({ result := true, clock_reads := 3 } : VmReturn).clock_reads) ∨
            ({ slow_processor with _first := uniform_chain 103 10 2,
                                    _return_to_vm_size := 70 } :
                G1ReturnMemoryProcessor)._first = [])) ∧
      ((({ result := false, deleted := uniform_chain 102 10 3, clock_reads := 3 } :
            OsReturn).result = true ↔
          ({ drained_processor with _first := [] } : G1ReturnMemoryProcessor)._first ≠ []) ∧
        (({ result := false, deleted := uniform_chain 102 10 3, clock_reads := 3 } :
            OsReturn).result = true ↔
          finished_return_to_os { drained_processor with _first := [] } = false) ∧
        (({ result := false, deleted := uniform_chain 102 10 3, clock_reads := 3 } :
            OsReturn).result = false ∧
          ({ drained_processor with _first := [] } : G1ReturnMemoryProcessor)._first = [])) :=
  ⟨C10_return_values.1 slow_processor
      { slow_processor with _first := uniform_chain 103 10 2, _return_to_vm_size := 70 }
      (free_list_of 1 []) (free_list_of 1 (uniform_chain 100 10 3)) 1 ticking_clock
      { result := true, clock_reads := 3 } rfl,
    (C10_return_values.2 drained_processor { drained_processor with _first := [] }
      (free_list_of 1 (uniform_chain 100 10 2)) (free_list_of 1 (uniform_chain 100 10 2))
      0 (clock_before 0)
      { result := false, deleted := uniform_chain 102 10 3, clock_reads := 3 } rfl).imp id
      (fun h => ⟨h.1, h.2 (fun _ => le_refl _)⟩)⟩

/-! ## What `visit_free_list` detaches -/

/-- C11: for every free list whose counters agree with its chain and whose size is
strictly greater than the positive target of a not yet visited processor,
`visit_free_list` detaches the entire chain: afterwards the free list is empty with
zero bytes and zero segments, the detached chain of the processor is the former chain
of the list in order, with its length and byte sum recorded in `_num_unlinked` and
`_unlinked_bytes`, and `_source` is that free list. -/
theorem C11_visit_detaches_whole_chain (p : G1ReturnMemoryProcessor)
    (fl : G1SegmentedArrayFreeList)
    (hsrc : p._source = none) (ht : 0 < p._return_to_vm_size)
    (hgt : p._return_to_vm_size < fl.mem_size)
    (hbytes : fl.mem_size = chain_bytes fl._list)
    (hnum : fl.num_segments = fl._list.length) :
    ∃ p1 fl1,
      visit_free_list p fl = .returned () p1 fl1 ∧
        fl1._list = [] ∧ fl1.mem_size = 0 ∧ fl1.num_segments = 0 ∧ fl1.addr = fl.addr ∧
        p1._first = fl._list ∧ p1._num_unlinked = fl._list.length ∧
        p1._unlinked_bytes = chain_bytes fl._list ∧
        p1._source = some fl.addr ∧ p1._return_to_vm_size = p._return_to_vm_size := by
  have hne : fl._list ≠ [] := by
    intro h0
    rw [h0, chain_bytes_nil] at hbytes
    omega
  refine ⟨_, _, visit_free_list_detach p fl hsrc ht hgt hne, rfl, rfl, rfl, rfl, rfl, ?_, ?_,
    rfl, rfl⟩
  · exact hnum
  · exact hbytes

/-- Witness for C11: five segments of 10 bytes and a target of 20. -/
theorem C11_visit_detaches_whole_chain_witness :
    ∃ p1 fl1,
      visit_free_list (G1ReturnMemoryProcessor.create 20)
          (free_list_of 1 (uniform_chain 100 10 5)) = .returned () p1 fl1 ∧
        fl1._list = [] ∧ fl1.mem_size = 0 ∧ fl1.num_segments = 0 ∧
        fl1.addr = (free_list_of 1 (uniform_chain 100 10 5)).addr ∧
        p1._first = (free_list_of 1 (uniform_chain 100 10 5))._list ∧
        p1._num_unlinked = (free_list_of 1 (uniform_chain 100 10 5))._list.length ∧
        p1._unlinked_bytes = chain_bytes (free_list_of 1 (uniform_chain 100 10 5))._list ∧
        p1._source = some (free_list_of 1 (uniform_chain 100 10 5)).addr ∧
        p1._return_to_vm_size = (G1ReturnMemoryProcessor.create 20)._return_to_vm_size :=
  C11_visit_detaches_whole_chain (G1ReturnMemoryProcessor.create 20)
    (free_list_of 1 (uniform_chain 100 10 5)) rfl (by decide) (by decide) rfl rfl

/-- C12: for every target, `visit_free_list` of an idle processor on a free list whose
chain is empty (whatever its counters say, so also when `get_all` is reached and
yields no segment) detaches nothing and resets the processor: afterwards the chain of
the free list is still empty, `_source` is null, `_return_to_vm_size` is 0, there is no
detached chain, and `finished_return_to_vm()` and `finished_return_to_os()` both
hold. -/
theorem C12_visit_empty_list_resets (p : G1ReturnMemoryProcessor)
    (fl : G1SegmentedArrayFreeList)
    (hsrc : p._source = none) (hfirst : p._first = []) (hempty : fl._list = []) :
    ∃ p1 fl1,
      visit_free_list p fl = .returned () p1 fl1 ∧
        fl1._list = [] ∧ p1._source = none ∧ p1._return_to_vm_size = 0 ∧ p1._first = [] ∧
        finished_return_to_vm p1 = true ∧ finished_return_to_os p1 = true := by
  by_cases hg : p._return_to_vm_size < fl.mem_size
  · have h : visit_free_list p fl =
        .returned ()
          (visit_reset
            { p with _source := if 0 < p._return_to_vm_size then some fl.addr else p._source,
                     _first := fl._list, _num_unlinked := fl._num_segments,
                     _unlinked_bytes := fl._mem_size })
          { fl with _list := [], _num_segments := 0, _mem_size := 0 } := by
      rw [visit_free_list_eq]
      simp only [hsrc, hg, Option.isSome_none, Bool.false_eq_true, if_false, if_true]
    refine ⟨_, _, h, rfl, ?_⟩
    simp [visit_reset, hempty, finished_return_to_vm, finished_return_to_os]
  · have h : visit_free_list p fl =
        .returned () { p with _source := none, _return_to_vm_size := 0 } fl := by
      rw [visit_free_list_eq]
      simp only [hsrc, hg, hfirst, Option.isSome_none, Bool.false_eq_true, if_false, if_true]
    refine ⟨_, _, h, hempty, rfl, rfl, hfirst, ?_, ?_⟩
    · simp [finished_return_to_vm]
    · simp [finished_return_to_os, hfirst]

/-- Witness for C12: an empty list and a target of 100. -/
theorem C12_visit_empty_list_resets_witness :
    ∃ p1 fl1,
      visit_free_list (G1ReturnMemoryProcessor.create 100) (free_list_of 1 []) =
          .returned () p1 fl1 ∧
        fl1._list = [] ∧ p1._source = none ∧ p1._return_to_vm_size = 0 ∧ p1._first = [] ∧
        finished_return_to_vm p1 = true ∧ finished_return_to_os p1 = true :=
  C12_visit_empty_list_resets (G1ReturnMemoryProcessor.create 100) (free_list_of 1 []) rfl rfl
    rfl

/-! ## Counters of the free list -/

theorem size_t_bytes_eq (acc : Nat) (c : Chain) (hacc : acc < 2 ^ 64) :
    size_t_bytes acc c = (acc + chain_bytes c) % 2 ^ 64 := by
  induction c generalizing acc with
  | nil =>
    simp only [size_t_bytes, List.foldl_nil, chain_bytes_nil, Nat.add_zero]
    exact (Nat.mod_eq_of_lt hacc).symm
  | cons s t ih =>
    have hlt : (acc + s.mem_size) % 2 ^ 64 < 2 ^ 64 := Nat.mod_lt _ (by norm_num)
    have := ih ((acc + s.mem_size) % 2 ^ 64) hlt
    simp only [size_t_bytes, List.foldl_cons, size_t_add] at this ⊢
    rw [this, chain_bytes_cons, Nat.mod_add_mod, Nat.add_assoc]

theorem size_t_count_eq (acc : Nat) (c : Chain) (hacc : acc < 2 ^ 64) :
    size_t_count acc c = (acc + c.length) % 2 ^ 64 := by
  induction c generalizing acc with
  | nil =>
    simp only [size_t_count, List.foldl_nil, List.length_nil, Nat.add_zero]
    exact (Nat.mod_eq_of_lt hacc).symm
  | cons s t ih =>
    have hlt : (acc + 1) % 2 ^ 64 < 2 ^ 64 := Nat.mod_lt _ (by norm_num)
    have := ih ((acc + 1) % 2 ^ 64) hlt
    simp only [size_t_count, List.foldl_cons, size_t_add] at this ⊢
    rw [this, List.length_cons, Nat.mod_add_mod]
    congr 1
    omega

theorem chain_bytes_take_le (c : Chain) (m : Nat) : chain_bytes (c.take m) ≤ chain_bytes c := by
  have := chain_bytes_take_add_drop c m
  omega

/-- C13: counter consistency across reattachment. In every returning call of
`return_to_vm` on segments that fit in the address space (byte sums and counts below
`2 ^ 64`), the chain from `_first` to `last` is spliced into the free list with
`keep_num` equal to its number of segments and `keep_size` equal to the sum of its
`mem_size()`; hence if `mem_size()` and `num_segments()` of the free list equalled the
byte sum and the length of its chain before the call, they do so after it. -/
theorem C13_counters_consistent (p p1 : G1ReturnMemoryProcessor)
    (fl fl1 : G1SegmentedArrayFreeList) (d : Int) (clock : Nat → Int) (ret : VmReturn)
    (h : return_to_vm p fl d clock = .returned ret p1 fl1)
    (hbytes : chain_bytes fl._list + chain_bytes p._first < 2 ^ 64)
    (hnum : fl._list.length + p._first.length < 2 ^ 64) :
    fl1 = fl.bulk_add (return_to_vm_loop d clock p._first (vm_loop_start p)).2.walked
        (return_to_vm_loop d clock p._first (vm_loop_start p)).2.keep_num
        (return_to_vm_loop d clock p._first (vm_loop_start p)).2.keep_size ∧
      (return_to_vm_loop d clock p._first (vm_loop_start p)).2.walked ++ p1._first = p._first ∧
      (return_to_vm_loop d clock p._first (vm_loop_start p)).2.keep_num =
        (return_to_vm_loop d clock p._first (vm_loop_start p)).2.walked.length ∧
      (return_to_vm_loop d clock p._first (vm_loop_start p)).2.keep_size =
        chain_bytes (return_to_vm_loop d clock p._first (vm_loop_start p)).2.walked ∧
      (fl.mem_size = chain_bytes fl._list → fl.num_segments = fl._list.length →
        fl1.mem_size = chain_bytes fl1._list ∧ fl1.num_segments = fl1._list.length) := by
  obtain ⟨hs, hr, hf⟩ := return_to_vm_returned_pre p fl d clock ret p1 fl1 h
  obtain ⟨_, _, h3, _⟩ := return_to_vm_shape p p1 fl fl1 d clock ret h
  rw [return_to_vm_returned p fl d clock hs hr hf] at h
  simp only [Outcome.returned.injEq] at h
  obtain ⟨_, _, hfl⟩ := h
  have hb := chain_bytes_take_le p._first (vm_steps d clock p._first p._return_to_vm_size 0)
  have hl : (p._first.take (vm_steps d clock p._first p._return_to_vm_size 0)).length ≤
      p._first.length := by
    rw [List.length_take]
    exact Nat.min_le_right _ _
  have hkn : size_t_count 0 (p._first.take (vm_steps d clock p._first p._return_to_vm_size 0)) =
      (p._first.take (vm_steps d clock p._first p._return_to_vm_size 0)).length := by
    rw [size_t_count_eq 0 _ (by norm_num), Nat.zero_add]
    exact Nat.mod_eq_of_lt (by omega)
  have hks : size_t_bytes 0 (p._first.take (vm_steps d clock p._first p._return_to_vm_size 0)) =
      chain_bytes (p._first.take (vm_steps d clock p._first p._return_to_vm_size 0)) := by
    rw [size_t_bytes_eq 0 _ (by norm_num), Nat.zero_add]
    exact Nat.mod_eq_of_lt (by omega)
  simp only [vm_loop_start, return_to_vm_loop_eq, List.nil_append]
  refine ⟨hfl.symm, ?_, hkn, hks, ?_⟩
  · rw [h3, List.take_append_drop]
  · intro hcm hcn
    rw [← hfl, hkn, hks]
    simp only [G1SegmentedArrayFreeList.bulk_add, G1SegmentedArrayFreeList.mem_size,
      G1SegmentedArrayFreeList.num_segments, size_t_add, chain_bytes_append,
      List.length_append] at hcm hcn ⊢
    rw [hcm, hcn]
    constructor
    · rw [Nat.add_comm]
      exact Nat.mod_eq_of_lt (by omega)
    · rw [Nat.add_comm]
      exact Nat.mod_eq_of_lt (by omega)

/-- Witness for C13: five detached segments of 10 bytes, 20 bytes of target, an empty
free list with counters 0. -/
theorem C13_counters_consistent_witness :
    free_list_of 1 (uniform_chain 100 10 2) =
        (free_list_of 1 []).bulk_add
          (return_to_vm_loop 0 (clock_before 0) pending_processor._first
            (vm_loop_start pending_processor)).2.walked
          (return_to_vm_loop 0 (clock_before 0) pending_processor._first
            (vm_loop_start pending_processor)).2.keep_num
          (return_to_vm_loop 0 (clock_before 0) pending_processor._first
            (vm_loop_start pending_processor)).2.keep_size ∧
      (return_to_vm_loop 0 (clock_before 0) pending_processor._first
          (vm_loop_start pending_processor)).2.walked ++ drained_processor._first =
        pending_processor._first ∧
      (return_to_vm_loop 0 (clock_before 0) pending_processor._first
          (vm_loop_start pending_processor)).2.keep_num =
        (return_to_vm_loop 0 (clock_before 0) pending_processor._first
          (vm_loop_start pending_processor)).2.walked.length ∧
      (return_to_vm_loop 0 (clock_before 0) pending_processor._first
          (vm_loop_start pending_processor)).2.keep_size =
        chain_bytes (return_to_vm_loop 0 (clock_before 0) pending_processor._first
          (vm_loop_start pending_processor)).2.walked ∧
      ((free_list_of 1 (uniform_chain 100 10 2)).mem_size =
          chain_bytes (free_list_of 1 (uniform_chain 100 10 2))._list ∧
        (free_list_of 1 (uniform_chain 100 10 2)).num_segments =
          (free_list_of 1 (uniform_chain 100 10 2))._list.length) :=
  (C13_counters_consistent pending_processor drained_processor (free_list_of 1 [])
    (free_list_of 1 (uniform_chain 100 10 2)) 0 (clock_before 0)
    { result := false, clock_reads := 2 } rfl (by decide) (by decide)).imp id
    (fun h => ⟨h.1, h.2.1, h.2.2.1, h.2.2.2 rfl rfl⟩)

/-! ## Pushes between the visit and the VM phase -/

theorem push_all_list (fl : G1SegmentedArrayFreeList) (pushed : Chain) :
    (push_all fl pushed)._list = pushed.reverse ++ fl._list := by
  induction pushed generalizing fl with
  | nil => simp [push_all]
  | cons s t ih =>
    have := ih (fl.push s)
    simp only [push_all, List.foldl_cons] at this ⊢
    rw [this]
    simp [G1SegmentedArrayFreeList.push]

theorem push_all_addr (fl : G1SegmentedArrayFreeList) (pushed : Chain) :
    (push_all fl pushed).addr = fl.addr := by
  induction pushed generalizing fl with
  | nil => simp [push_all]
  | cons s t ih =>
    have := ih (fl.push s)
    simp only [push_all, List.foldl_cons] at this ⊢
    rw [this]
    simp [G1SegmentedArrayFreeList.push]

theorem push_all_num_segments (fl : G1SegmentedArrayFreeList) (pushed : Chain)
    (h : fl._num_segments < 2 ^ 64) :
    (push_all fl pushed)._num_segments = (fl._num_segments + pushed.length) % 2 ^ 64 := by
  induction pushed generalizing fl with
  | nil =>
    simp only [push_all, List.foldl_nil, List.length_nil, Nat.add_zero]
    exact (Nat.mod_eq_of_lt h).symm
  | cons s t ih =>
    have hlt : (fl.push s)._num_segments < 2 ^ 64 := by
      simp only [G1SegmentedArrayFreeList.push, size_t_add]
      exact Nat.mod_lt _ (by norm_num)
    have := ih (fl.push s) hlt
    simp only [push_all, List.foldl_cons] at this ⊢
    rw [this]
    simp only [G1SegmentedArrayFreeList.push, size_t_add, List.length_cons, Nat.mod_add_mod]
    congr 1
    omega

theorem push_all_mem_size (fl : G1SegmentedArrayFreeList) (pushed : Chain)
    (h : fl._mem_size < 2 ^ 64) :
    (push_all fl pushed)._mem_size = (fl._mem_size + chain_bytes pushed) % 2 ^ 64 := by
  induction pushed generalizing fl with
  | nil =>
    simp only [push_all, List.foldl_nil, chain_bytes_nil, Nat.add_zero]
    exact (Nat.mod_eq_of_lt h).symm
  | cons s t ih =>
    have hlt : (fl.push s)._mem_size < 2 ^ 64 := by
      simp only [G1SegmentedArrayFreeList.push, size_t_add]
      exact Nat.mod_lt _ (by norm_num)
    have := ih (fl.push s) hlt
    simp only [push_all, List.foldl_cons] at this ⊢
    rw [this]
    simp only [G1SegmentedArrayFreeList.push, size_t_add, chain_bytes_cons, Nat.mod_add_mod]
    congr 1
    omega

theorem chain_bytes_reverse (c : Chain) : chain_bytes c.reverse = chain_bytes c := by
  simp [chain_bytes, List.sum_reverse]

theorem chain_addrs_nodup_imp (c : Chain) (h : (chain_addrs c).Nodup) : c.Nodup :=
  List.Nodup.of_map _ h

/-- C14: no loss under an interleaved push. Take a free list whose counters agree with
its chain and whose size exceeds the positive target of a not yet visited processor;
let `visit_free_list` detach the chain, let the segments `pushed` (distinct from each
other and from those of the list) be pushed onto the free list, and then let
`return_to_vm` run, all segments fitting in the address space. Afterwards the chain of
the free list consists of the segments `kept` by `return_to_vm` followed by the pushed
ones, each of them exactly once, and `num_segments()` and `mem_size()` are the sums
over both groups. -/
theorem C14_no_loss_under_push (p : G1ReturnMemoryProcessor) (fl : G1SegmentedArrayFreeList)
    (pushed : Chain) (d : Int) (clock : Nat → Int)
    (hsrc : p._source = none) (ht : 0 < p._return_to_vm_size)
    (hgt : p._return_to_vm_size < fl.mem_size)
    (hcm : fl.mem_size = chain_bytes fl._list)
    (hdistinct : (chain_addrs (fl._list ++ pushed)).Nodup)
    (hbytes : chain_bytes fl._list + chain_bytes pushed < 2 ^ 64)
    (hnum : fl._list.length + pushed.length < 2 ^ 64) :
    ∃ p1 fl1 ret p2 fl2 kept,
      visit_free_list p fl = .returned () p1 fl1 ∧
        return_to_vm p1 (push_all fl1 pushed) d clock = .returned ret p2 fl2 ∧
        kept ≠ [] ∧ kept ++ p2._first = fl._list ∧
        fl2._list = kept ++ pushed.reverse ∧
        (∀ s, s ∈ kept ∨ s ∈ pushed → fl2._list.count s = 1) ∧
        (chain_addrs fl2._list).Nodup ∧
        fl2.num_segments = kept.length + pushed.length ∧
        fl2.mem_size = chain_bytes kept + chain_bytes pushed := by
  have hne : fl._list ≠ [] := by
    intro h0
    rw [h0, chain_bytes_nil] at hcm
    omega
  have hm := vm_steps_pos d clock fl._list p._return_to_vm_size 0 hne ht
  have hkne := take_ne_nil_of_pos fl._list _ hne hm
  have hb := chain_bytes_take_le fl._list (vm_steps d clock fl._list p._return_to_vm_size 0)
  have hl : (fl._list.take (vm_steps d clock fl._list p._return_to_vm_size 0)).length ≤
      fl._list.length := by
    rw [List.length_take]
    exact Nat.min_le_right _ _
  have hkn : size_t_count 0 (fl._list.take (vm_steps d clock fl._list p._return_to_vm_size 0)) =
      (fl._list.take (vm_steps d clock fl._list p._return_to_vm_size 0)).length := by
    rw [size_t_count_eq 0 _ (by norm_num), Nat.zero_add]
    exact Nat.mod_eq_of_lt (by omega)
  have hks : size_t_bytes 0 (fl._list.take (vm_steps d clock fl._list p._return_to_vm_size 0)) =
      chain_bytes (fl._list.take (vm_steps d clock fl._list p._return_to_vm_size 0)) := by
    rw [size_t_bytes_eq 0 _ (by norm_num), Nat.zero_add]
    exact Nat.mod_eq_of_lt (by omega)
  have hsub : List.Sublist
      (fl._list.take (vm_steps d clock fl._list p._return_to_vm_size 0) ++ pushed)
      (fl._list ++ pushed) :=
    List.Sublist.append (List.take_sublist _ _) (List.Sublist.refl _)
  have hnd1 : (chain_addrs
      (fl._list.take (vm_steps d clock fl._list p._return_to_vm_size 0) ++ pushed)).Nodup :=
    (hsub.map (fun s : G1SegmentedArraySegment => s.addr)).nodup hdistinct
  have hperm : List.Perm
      (fl._list.take (vm_steps d clock fl._list p._return_to_vm_size 0) ++ pushed.reverse)
      (fl._list.take (vm_steps d clock fl._list p._return_to_vm_size 0) ++ pushed) :=
    List.Perm.append_left _ (List.reverse_perm pushed)
  have hnd2 : (chain_addrs
      (fl._list.take (vm_steps d clock fl._list p._return_to_vm_size 0) ++
        pushed.reverse)).Nodup :=
    ((hperm.map (fun s : G1SegmentedArraySegment => s.addr)).nodup_iff).mpr hnd1
  refine ⟨_, _, _, _, _, fl._list.take (vm_steps d clock fl._list p._return_to_vm_size 0),
    visit_free_list_detach p fl hsrc ht hgt hne,
    return_to_vm_returned _ _ d clock rfl ht hne, hkne, ?_, ?_, ?_, ?_, ?_, ?_⟩
  · simp only [vm_after]
    split_ifs <;> exact List.take_append_drop _ _
  · simp [G1SegmentedArrayFreeList.bulk_add, push_all_list]
  · intro s hs
    have hin : s ∈ fl._list.take (vm_steps d clock fl._list p._return_to_vm_size 0) ++
        pushed.reverse := by
      rcases hs with hs | hs
      · exact List.mem_append_left _ hs
      · exact List.mem_append_right _ (List.mem_reverse.mpr hs)
    simp only [G1SegmentedArrayFreeList.bulk_add, push_all_list, List.append_nil]
    exact List.count_eq_one_of_mem (chain_addrs_nodup_imp _ hnd2) hin
  · simpa [G1SegmentedArrayFreeList.bulk_add, push_all_list] using hnd2
  · simp only [G1SegmentedArrayFreeList.bulk_add, G1SegmentedArrayFreeList.num_segments, hkn]
    rw [push_all_num_segments _ _ (by norm_num)]
    simp only [size_t_add, Nat.zero_add]
    rw [Nat.mod_add_mod, Nat.add_comm]
    exact Nat.mod_eq_of_lt (by omega)
  · simp only [G1SegmentedArrayFreeList.bulk_add, G1SegmentedArrayFreeList.mem_size, hks]
    rw [push_all_mem_size _ _ (by norm_num)]
    simp only [size_t_add, Nat.zero_add]
    rw [Nat.mod_add_mod, Nat.add_comm]
    exact Nat.mod_eq_of_lt (by omega)

/-- Witness for C14: five segments of 10 bytes, a target of 20 and two pushed segments. -/
theorem C14_no_loss_under_push_witness :
    ∃ p1 fl1 ret p2 fl2 kept,
      visit_free_list (G1ReturnMemoryProcessor.create 20)
          (free_list_of 1 (uniform_chain 100 10 5)) = .returned () p1 fl1 ∧
        return_to_vm p1 (push_all fl1 two_pushed) 0 (clock_before 0) = .returned ret p2 fl2 ∧
        kept ≠ [] ∧ kept ++ p2._first = (free_list_of 1 (uniform_chain 100 10 5))._list ∧
        fl2._list = kept ++ two_pushed.reverse ∧
        (∀ s, s ∈ kept ∨ s ∈ two_pushed → fl2._list.count s = 1) ∧
        (chain_addrs fl2._list).Nodup ∧
        fl2.num_segments = kept.length + two_pushed.length ∧
        fl2.mem_size = chain_bytes kept + chain_bytes two_pushed :=
  C14_no_loss_under_push (G1ReturnMemoryProcessor.create 20)
    (free_list_of 1 (uniform_chain 100 10 5)) two_pushed 0 (clock_before 0) rfl (by decide)
    (by decide) rfl (by decide) (by decide) (by decide)

/-! ## Statistics of the pool -/

/-- Writing `f i` at every index `i < k` of an array. -/
theorem foldl_set_range (f : Nat → Nat) (l : List Nat) (k : Nat) (hk : k ≤ l.length) :
    (List.range k).foldl (fun a i => a.set i (f i)) l = (List.range k).map f ++ l.drop k := by
  induction k with
  | zero => simp
  | succ n ih =>
    have hn : n < l.length := by omega
    rw [List.range_succ, List.foldl_append, ih (by omega)]
    simp only [List.foldl_cons, List.foldl_nil, List.map_append, List.map_cons, List.map_nil]
    rw [List.set_append]
    simp only [List.length_map, List.length_range, Nat.lt_irrefl, if_false, Nat.sub_self]
    rw [List.drop_eq_getElem_cons hn, List.set_cons_zero]
    simp

theorem foldl_set_range_all (f : Nat → Nat) (l : List Nat) :
    (List.range l.length).foldl (fun a i => a.set i (f i)) l = (List.range l.length).map f := by
  rw [foldl_set_range f l l.length (Nat.le_refl _), List.drop_length, List.append_nil]

/-- The two arrays of a stats object are filled independently of each other. -/
theorem stats_foldl_fields (f g : Nat → Nat) (is : List Nat) (st : G1SegmentedArrayMemoryStats) :
    is.foldl (fun acc i =>
        ({ _num_mem_sizes := acc._num_mem_sizes.set i (f i),
           _num_segments := acc._num_segments.set i (g i) } : G1SegmentedArrayMemoryStats)) st =
      { _num_mem_sizes := is.foldl (fun a i => a.set i (f i)) st._num_mem_sizes,
        _num_segments := is.foldl (fun a i => a.set i (g i)) st._num_segments } := by
  induction is generalizing st with
  | nil => rfl
  | cons i t ih => simp only [List.foldl_cons, ih]

theorem map_range_const (n c : Nat) : (List.range n).map (fun _ => c) = List.replicate n c := by
  apply List.ext_getElem?
  intro i
  by_cases hi : i < n
  · simp [List.getElem?_map, List.getElem?_range hi, List.getElem?_replicate, hi]
  · simp [List.getElem?_replicate, hi]

theorem map_range_getD {α : Type} (l : List α) (dflt : α) (h : α → Nat) :
    (List.range l.length).map (fun i => h (l.getD i dflt)) = l.map h := by
  apply List.ext_getElem?
  intro i
  by_cases hi : i < l.length
  · simp [List.getElem?_map, List.getElem?_range hi, List.getD_eq_getElem?_getD,
      List.getElem?_eq_getElem hi]
  · have h1 : l.length ≤ i := by omega
    simp [List.getElem?_eq_none, h1]

/-- The effect of `clear` on arrays of `num` entries: every entry is 0. -/
theorem clear_eq (num : Nat) (st : G1SegmentedArrayMemoryStats)
    (h1 : st._num_mem_sizes.length = num) (h2 : st._num_segments.length = num) :
    G1SegmentedArrayMemoryStats.clear num st =
      { _num_mem_sizes := List.replicate num 0, _num_segments := List.replicate num 0 } := by
  unfold G1SegmentedArrayMemoryStats.clear
  rw [stats_foldl_fields (fun _ => 0) (fun _ => 0)]
  have e1 := foldl_set_range_all (fun _ => 0) st._num_mem_sizes
  have e2 := foldl_set_range_all (fun _ => 0) st._num_segments
  rw [h1] at e1
  rw [h2] at e2
  rw [e1, e2, map_range_const]

/-- The effect of `memory_sizes`: the snapshot lists the counters of the free lists. -/
theorem memory_sizes_eq (NUM : Nat) (pool : G1SegmentedArrayFreePool)
    (raw : G1SegmentedArrayMemoryStats) (hlen : pool._free_lists.length = NUM)
    (h1 : raw._num_mem_sizes.length = NUM) (h2 : raw._num_segments.length = NUM) :
    G1SegmentedArrayFreePool.memory_sizes NUM pool raw =
      { _num_mem_sizes := pool._free_lists.map (fun fl => fl.mem_size),
        _num_segments := pool._free_lists.map (fun fl => fl.num_segments) } := by
  unfold G1SegmentedArrayFreePool.memory_sizes G1SegmentedArrayMemoryStats.create
  rw [clear_eq NUM raw h1 h2]
  rw [stats_foldl_fields (fun i => (pool._free_lists.getD i empty_free_list).mem_size)
    (fun i => (pool._free_lists.getD i empty_free_list).num_segments)]
  have e1 := foldl_set_range_all
    (fun i => (pool._free_lists.getD i empty_free_list).mem_size) (List.replicate NUM 0)
  have e2 := foldl_set_range_all
    (fun i => (pool._free_lists.getD i empty_free_list).num_segments) (List.replicate NUM 0)
  rw [List.length_replicate] at e1 e2
  simp only [e1, e2]
  subst hlen
  rw [map_range_getD pool._free_lists empty_free_list (fun fl => fl.mem_size),
    map_range_getD pool._free_lists empty_free_list (fun fl => fl.num_segments)]

theorem foldl_size_t_add_eq (l : List Nat) (acc : Nat) (hacc : acc < 2 ^ 64) :
    l.foldl size_t_add acc = (acc + l.sum) % 2 ^ 64 := by
  induction l generalizing acc with
  | nil =>
    simp only [List.foldl_nil, List.sum_nil, Nat.add_zero]
    exact (Nat.mod_eq_of_lt hacc).symm
  | cons x t ih =>
    have hlt : size_t_add acc x < 2 ^ 64 := Nat.mod_lt _ (by norm_num)
    rw [List.foldl_cons, ih _ hlt, List.sum_cons]
    simp only [size_t_add, Nat.mod_add_mod, Nat.add_assoc]

theorem foldl_range_getD {α : Type} (l : List α) (dflt : α) (h : α → Nat) (acc : Nat) (k : Nat)
    (hk : k ≤ l.length) :
    (List.range k).foldl (fun r i => size_t_add r (h (l.getD i dflt))) acc =
      ((l.take k).map h).foldl size_t_add acc := by
  induction k with
  | zero => simp
  | succ n ih =>
    have hn : n < l.length := by omega
    rw [List.range_succ, List.foldl_append, ih (by omega)]
    have e : l.take (n + 1) = l.take n ++ [l[n]] := by
      rw [List.take_succ, List.getElem?_eq_getElem hn]
      rfl
    rw [e, List.map_append, List.foldl_append]
    simp only [List.foldl_cons, List.foldl_nil, List.map_cons, List.map_nil,
      List.getD_eq_getElem?_getD, List.getElem?_eq_getElem hn, Option.getD_some]

/-- The effect of `mem_size` of the pool: the sum of the byte counters, in `size_t`
arithmetic. -/
theorem pool_mem_size_eq (NUM : Nat) (pool : G1SegmentedArrayFreePool)
    (hlen : pool._free_lists.length = NUM) :
    G1SegmentedArrayFreePool.mem_size NUM pool =
      (pool._free_lists.map (fun fl => fl.mem_size)).sum % 2 ^ 64 := by
  unfold G1SegmentedArrayFreePool.mem_size
  subst hlen
  rw [foldl_range_getD pool._free_lists empty_free_list (fun fl => fl.mem_size) 0 _
    (Nat.le_refl _), List.take_length, foldl_size_t_add_eq _ 0 (by norm_num), Nat.zero_add]

/-- C15: for a pool of `NUM` free lists (and storage of `NUM` entries per array for the
snapshot), `memory_sizes()` returns a snapshot whose entry `i`, for every `i < NUM`,
holds `mem_size()` and `num_segments()` of free list `i`; `mem_size()` of the pool is
the sum of `mem_size()` over the free lists, which is the sum of the byte entries of
the snapshot, in `size_t` arithmetic; and a newly constructed or cleared
`G1SegmentedArrayMemoryStats` has every entry 0. -/
theorem C15_pool_statistics (NUM : Nat) (pool : G1SegmentedArrayFreePool)
    (raw : G1SegmentedArrayMemoryStats) (hlen : pool._free_lists.length = NUM)
    (h1 : raw._num_mem_sizes.length = NUM) (h2 : raw._num_segments.length = NUM) :
    (G1SegmentedArrayFreePool.memory_sizes NUM pool raw)._num_mem_sizes =
        pool._free_lists.map (fun fl => fl.mem_size) ∧
      (G1SegmentedArrayFreePool.memory_sizes NUM pool raw)._num_segments =
        pool._free_lists.map (fun fl => fl.num_segments) ∧
      (∀ (i : Nat) (fl : G1SegmentedArrayFreeList), pool._free_lists[i]? = some fl →
        (G1SegmentedArrayFreePool.memory_sizes NUM pool raw)._num_mem_sizes[i]? =
            some fl.mem_size ∧
          (G1SegmentedArrayFreePool.memory_sizes NUM pool raw)._num_segments[i]? =
            some fl.num_segments) ∧
      G1SegmentedArrayFreePool.mem_size NUM pool =
        (pool._free_lists.map (fun fl => fl.mem_size)).sum % 2 ^ 64 ∧
      G1SegmentedArrayFreePool.mem_size NUM pool =
        (G1SegmentedArrayFreePool.memory_sizes NUM pool raw)._num_mem_sizes.sum % 2 ^ 64 ∧
      G1SegmentedArrayMemoryStats.create NUM raw =
        { _num_mem_sizes := List.replicate NUM 0, _num_segments := List.replicate NUM 0 } ∧
      G1SegmentedArrayMemoryStats.clear NUM raw =
        { _num_mem_sizes := List.replicate NUM 0, _num_segments := List.replicate NUM 0 } ∧
      (∀ i, i < NUM →
        (G1SegmentedArrayMemoryStats.clear NUM raw)._num_mem_sizes[i]? = some 0 ∧
          (G1SegmentedArrayMemoryStats.clear NUM raw)._num_segments[i]? = some 0) := by
  have hm := memory_sizes_eq NUM pool raw hlen h1 h2
  have hc := clear_eq NUM raw h1 h2
  have hp := pool_mem_size_eq NUM pool hlen
  refine ⟨by rw [hm], by rw [hm], ?_, hp, by rw [hp, hm], hc, hc, ?_⟩
  · intro i fl hfl
    rw [hm]
    simp [List.getElem?_map, hfl]
  · intro i hi
    rw [hc]
    simp [List.getElem?_replicate, hi]

/-- Witness for C15: a pool of three free lists holding 50, 0 and 30 bytes. -/
theorem C15_pool_statistics_witness :
    (G1SegmentedArrayFreePool.memory_sizes 3 sample_pool sample_raw)._num_mem_sizes =
        [50, 0, 30] ∧
      (G1SegmentedArrayFreePool.memory_sizes 3 sample_pool sample_raw)._num_segments =
        [5, 0, 2] ∧
      G1SegmentedArrayFreePool.mem_size 3 sample_pool = 80 ∧
      G1SegmentedArrayMemoryStats.create 3 sample_raw =
        { _num_mem_sizes := [0, 0, 0], _num_segments := [0, 0, 0] } :=
  ⟨(C15_pool_statistics 3 sample_pool sample_raw rfl rfl rfl).1,
    (C15_pool_statistics 3 sample_pool sample_raw rfl rfl rfl).2.1,
    (C15_pool_statistics 3 sample_pool sample_raw rfl rfl rfl).2.2.2.1,
    (C15_pool_statistics 3 sample_pool sample_raw rfl rfl rfl).2.2.2.2.2.1⟩

/-! ## The state invariant -/

theorem state_invariant_iff (p : G1ReturnMemoryProcessor) :
    state_invariant p = true ↔
      ((p._source.isSome = true ↔ 0 < p._return_to_vm_size) ∧
        (p._source.isSome = true → p._first ≠ [])) := by
  unfold state_invariant
  cases hs : p._source <;> cases hf : p._first <;> simp

theorem state_invariant_reset (p : G1ReturnMemoryProcessor) (c : Chain) :
    state_invariant { p with _first := c, _source := none, _return_to_vm_size := 0 } = true := by
  simp [state_invariant]

/-- Whatever the state before, a returning `visit_free_list` establishes the invariant. -/
theorem visit_state_invariant (p p1 : G1ReturnMemoryProcessor)
    (fl fl1 : G1SegmentedArrayFreeList) (h : visit_free_list p fl = .returned () p1 fl1) :
    state_invariant p1 = true := by
  rw [visit_free_list_eq] at h
  by_cases h1 : p._source.isSome = true
  · simp [h1] at h
  · have hnone : p._source = none := by
      cases hs : p._source with
      | none => rfl
      | some a => simp [hs] at h1
    by_cases h2 : p._return_to_vm_size < fl.mem_size
    · simp only [h1, h2, if_true, if_false, Bool.false_eq_true, Outcome.returned.injEq,
        true_and] at h
      obtain ⟨hp, _⟩ := h
      subst hp
      by_cases he : fl._list = []
      · simp [visit_reset, he, state_invariant]
      · by_cases h0 : 0 < p._return_to_vm_size
        · have : fl._list.isEmpty = false := by
            cases hl : fl._list with
            | nil => exact absurd hl he
            | cons a t => rfl
          simp [visit_reset, this, state_invariant, h0]
        · have hz : p._return_to_vm_size = 0 := by omega
          have : fl._list.isEmpty = false := by
            cases hl : fl._list with
            | nil => exact absurd hl he
            | cons a t => rfl
          simp [visit_reset, this, state_invariant, hz, hnone]
    · by_cases h3 : p._first = []
      · simp only [h1, h2, h3, if_true, if_false, Bool.false_eq_true, Outcome.returned.injEq,
          true_and] at h
        obtain ⟨hp, _⟩ := h
        subst hp
        simp [state_invariant]
      · simp [h1, h2, h3] at h

/-- Whatever the state before, a returning `return_to_vm` establishes the invariant. -/
theorem return_to_vm_state_invariant (p p1 : G1ReturnMemoryProcessor)
    (fl fl1 : G1SegmentedArrayFreeList) (d : Int) (clock : Nat → Int) (ret : VmReturn)
    (h : return_to_vm p fl d clock = .returned ret p1 fl1) : state_invariant p1 = true := by
  obtain ⟨hs, _, _⟩ := return_to_vm_returned_pre p fl d clock ret p1 fl1 h
  obtain ⟨_, _, _, h4, _⟩ := return_to_vm_shape p p1 fl fl1 d clock ret h
  rw [h4]
  unfold vm_after
  split_ifs with hc
  · simp [state_invariant]
  · push_neg at hc
    obtain ⟨hc1, hc2⟩ := hc
    have h0 : 0 < p._return_to_vm_size -
        chain_bytes (p._first.take (vm_steps d clock p._first p._return_to_vm_size 0)) := by
      omega
    have hne : (p._first.drop (vm_steps d clock p._first p._return_to_vm_size 0)).isEmpty =
        false := by simpa using hc2
    simp [state_invariant, hs, h0, hne]

/-- In a state that satisfies the invariant and has VM work pending, the processor has
a source, a positive target and a non-empty detached chain. -/
theorem pending_of_invariant (p : G1ReturnMemoryProcessor) (hinv : state_invariant p = true)
    (hfin : finished_return_to_vm p = false) :
    p._source.isSome = true ∧ 0 < p._return_to_vm_size ∧ p._first ≠ [] := by
  obtain ⟨h1, h2⟩ := (state_invariant_iff p).mp hinv
  have hs : p._source.isSome = true := by
    cases hsrc : p._source with
    | some a => rfl
    | none =>
      have hz : ¬ (0 < p._return_to_vm_size) := by
        intro h0
        have := h1.mpr h0
        simp [hsrc] at this
      have : p._return_to_vm_size = 0 := by omega
      simp [finished_return_to_vm, hsrc, this] at hfin
  exact ⟨hs, h1.mp hs, h2 hs⟩

/-- `visit_free_list` on a processor with no source and no detached chain returns. -/
theorem visit_free_list_idle_returns (p : G1ReturnMemoryProcessor)
    (fl : G1SegmentedArrayFreeList) (hsrc : p._source = none) (hfirst : p._first = []) :
    ∃ p1 fl1, visit_free_list p fl = .returned () p1 fl1 := by
  by_cases hg : p._return_to_vm_size < fl.mem_size
  · have h : visit_free_list p fl =
        .returned ()
          (visit_reset
            { p with _source := if 0 < p._return_to_vm_size then some fl.addr else p._source,
                     _first := fl._list, _num_unlinked := fl._num_segments,
                     _unlinked_bytes := fl._mem_size })
          { fl with _list := [], _num_segments := 0, _mem_size := 0 } := by
      rw [visit_free_list_eq]
      simp only [hsrc, hg, Option.isSome_none, Bool.false_eq_true, if_false, if_true]
    exact ⟨_, _, h⟩
  · exact ⟨_, _, visit_free_list_keep p fl hsrc hfirst (by omega)⟩

/-- C16: state invariant and validity of the assertions. `visit_free_list` on a newly
constructed processor returns, and after it, as after every returning `return_to_vm`
call, `_source` is non-null exactly when `_return_to_vm_size > 0`, and a non-null
`_source` implies a non-empty detached chain. The same holds after every non-empty
sequence of calls from a newly constructed processor none of which stops. Consequently,
in such a state, whenever `finished_return_to_vm()` is false, `return_to_vm` returns
(none of the assertions at lines 81, 104 and 105 fails, `_source` is non-null) and its
loop runs at least once. -/
theorem C16_state_invariant :
    (∀ (target : Nat) (fl : G1SegmentedArrayFreeList),
        ∃ p1 fl1, visit_free_list (G1ReturnMemoryProcessor.create target) fl =
            .returned () p1 fl1 ∧
          (p1._source.isSome = true ↔ 0 < p1._return_to_vm_size) ∧
          (p1._source.isSome = true → p1._first ≠ [])) ∧
      (∀ (p p1 : G1ReturnMemoryProcessor) (fl fl1 : G1SegmentedArrayFreeList) (d : Int)
          (clock : Nat → Int) (ret : VmReturn),
        return_to_vm p fl d clock = .returned ret p1 fl1 →
        (p1._source.isSome = true ↔ 0 < p1._return_to_vm_size) ∧
          (p1._source.isSome = true → p1._first ≠ [])) ∧
      (∀ (target : Nat) (fl : G1SegmentedArrayFreeList) (calls : List Call) (w : World),
        calls ≠ [] → run (World.initial target fl) calls = some w →
        (w.proc._source.isSome = true ↔ 0 < w.proc._return_to_vm_size) ∧
          (w.proc._source.isSome = true → w.proc._first ≠ [])) ∧
      (∀ (p : G1ReturnMemoryProcessor) (fl : G1SegmentedArrayFreeList) (d : Int)
          (clock : Nat → Int),
        (p._source.isSome = true ↔ 0 < p._return_to_vm_size) →
        (p._source.isSome = true → p._first ≠ []) →
        finished_return_to_vm p = false →
        ∃ ret p1 fl1, return_to_vm p fl d clock = .returned ret p1 fl1 ∧
          0 < ret.clock_reads ∧ p1._first.length < p._first.length) := by
  refine ⟨?_, ?_, ?_, ?_⟩
  · intro target fl
    have hret := visit_free_list_idle_returns (G1ReturnMemoryProcessor.create target) fl rfl rfl
    obtain ⟨p1, fl1, h⟩ := hret
    exact ⟨p1, fl1, h, (state_invariant_iff p1).mp (visit_state_invariant _ _ _ _ h)⟩
  · intro p p1 fl fl1 d clock ret h
    exact (state_invariant_iff p1).mp (return_to_vm_state_invariant p p1 fl fl1 d clock ret h)
  · intro target fl calls w hne hrun
    have key : ∀ (cs : List Call) (w0 w1 : World), cs ≠ [] → run w0 cs = some w1 →
        state_invariant w1.proc = true := by
      intro cs
      induction cs with
      | nil => intro w0 w1 h; exact absurd rfl h
      | cons c t ih =>
        intro w0 w1 _ hr
        simp only [run] at hr
        cases hs : step w0 c with
        | none => simp [hs] at hr
        | some w2 =>
          simp only [hs] at hr
          by_cases ht : t = []
          · subst ht
            simp only [run, Option.some.injEq] at hr
            subst hr
            cases c with
            | visit =>
              simp only [step] at hs
              cases hv : visit_free_list w0.proc w0.free_list with
              | stopped s p fl => simp [hv] at hs
              | returned r p fl =>
                simp only [hv, Option.some.injEq] at hs
                subst hs
                exact visit_state_invariant _ _ _ _ hv
            | to_vm d clock =>
              simp only [step] at hs
              cases hv : return_to_vm w0.proc w0.free_list d clock with
              | stopped s p fl => simp [hv] at hs
              | returned r p fl =>
                simp only [hv, Option.some.injEq] at hs
                subst hs
                exact return_to_vm_state_invariant _ _ _ _ d clock r hv
            | to_os d clock =>
              simp only [step] at hs
              cases hv : return_to_os w0.proc w0.free_list d clock with
              | stopped s p fl => simp [hv] at hs
              | returned r p fl =>
                simp only [hv, Option.some.injEq] at hs
                subst hs
                obtain ⟨hfv, _⟩ := return_to_os_returned_pre _ _ d clock r p fl hv
                obtain ⟨_, _, h3, _⟩ := return_to_os_shape _ _ _ _ d clock r hv
                rw [h3]
                simp only [finished_return_to_vm, Bool.and_eq_true, beq_iff_eq] at hfv
                cases hsrc : w0.proc._source with
                | none => simp [state_invariant, hsrc, hfv.2]
                | some a => simp [hsrc] at hfv
          · exact ih w2 w1 ht hr
    exact (state_invariant_iff w.proc).mp (key calls _ w hne hrun)
  · intro p fl d clock h1 h2 hfin
    obtain ⟨hs, hr, hf⟩ := pending_of_invariant p ((state_invariant_iff p).mpr ⟨h1, h2⟩) hfin
    have hm := vm_steps_pos d clock p._first p._return_to_vm_size 0 hf hr
    refine ⟨_, _, _, return_to_vm_returned p fl d clock hs hr hf, hm, ?_⟩
    have hlen : 0 < p._first.length := List.length_pos.mpr hf
    have : (vm_after p (vm_steps d clock p._first p._return_to_vm_size 0))._first =
        p._first.drop (vm_steps d clock p._first p._return_to_vm_size 0) := by
      unfold vm_after
      split_ifs <;> rfl
    rw [this, List.length_drop]
    omega

/-- Witness for C16: the visit of five segments of 10 bytes with target 20, the
`return_to_vm` call that follows, the calls of `sliced_cycle`, and a `return_to_vm` call
on the visited processor with the deadline already past. -/
theorem C16_state_invariant_witness :
    (∃ p1 fl1, visit_free_list (G1ReturnMemoryProcessor.create 20)
          (free_list_of 1 (uniform_chain 100 10 5)) = .returned () p1 fl1 ∧
        (p1._source.isSome = true ↔ 0 < p1._return_to_vm_size) ∧
        (p1._source.isSome = true → p1._first ≠ [])) ∧
      ((drained_processor._source.isSome = true ↔ 0 < drained_processor._return_to_vm_size) ∧
        (drained_processor._source.isSome = true → drained_processor._first ≠ [])) ∧
      ((sliced_cycle_end.proc._source.isSome = true ↔
          0 < sliced_cycle_end.proc._return_to_vm_size) ∧
        (sliced_cycle_end.proc._source.isSome = true → sliced_cycle_end.proc._first ≠ [])) ∧
      (∃ ret p1 fl1,
        return_to_vm pending_processor (free_list_of 1 []) 0 (clock_past 0) =
            .returned ret p1 fl1 ∧
          0 < ret.clock_reads ∧ p1._first.length < pending_processor._first.length) :=
  ⟨C16_state_invariant.1 20 (free_list_of 1 (uniform_chain 100 10 5)),
    C16_state_invariant.2.1 pending_processor drained_processor (free_list_of 1 [])
      (free_list_of 1 (uniform_chain 100 10 2)) 0 (clock_before 0)
      { result := false, clock_reads := 2 } rfl,
    C16_state_invariant.2.2.1 20 (free_list_of 1 (uniform_chain 100 10 5)) sliced_cycle
      sliced_cycle_end (List.cons_ne_nil _ _) rfl,
    C16_state_invariant.2.2.2 pending_processor (free_list_of 1 []) 0 (clock_past 0)
      (by decide) (by decide) rfl⟩

/-! ## Repeated calls -/

theorem keep_count_zero_target (c : Chain) : keep_count c 0 = 0 := by
  cases c <;> simp [keep_count]

theorem keep_count_le_length (c : Chain) (r : Nat) : keep_count c r ≤ c.length := by
  induction c generalizing r with
  | nil => simp [keep_count]
  | cons s t ih =>
    unfold keep_count
    split_ifs
    · have := ih (r - min r s.mem_size)
      simp only [List.length_cons]
      omega
    · omega

/-- With no deadline expiry the loop of `return_to_vm` walks `keep_count` segments. -/
theorem vm_steps_eq_keep_count (d : Int) (clock : Nat → Int) (c : Chain) (r i : Nat)
    (hclock : ∀ j, clock j ≤ d) : vm_steps d clock c r i = keep_count c r := by
  induction c generalizing r i with
  | nil => simp [vm_steps, keep_count]
  | cons s t ih =>
    unfold vm_steps keep_count
    have hc : ¬ (clock i > d) := not_lt.mpr (hclock i)
    by_cases hr : r > 0
    · simp only [hr, hc, if_true, if_false]
      rw [ih]
    · simp only [hr, if_false]

/-- Whatever the clock, the segments walked by one call and the segments still to walk
afterwards add up to `keep_count`. -/
theorem keep_count_split (d : Int) (clock : Nat → Int) (c : Chain) (r i : Nat) :
    keep_count c r =
      vm_steps d clock c r i +
        keep_count (c.drop (vm_steps d clock c r i))
          (r - chain_bytes (c.take (vm_steps d clock c r i))) := by
  induction c generalizing r i with
  | nil => simp [vm_steps, keep_count]
  | cons s t ih =>
    by_cases hr : r > 0
    · by_cases hc : clock i > d
      · have hm : vm_steps d clock (s :: t) r i = 1 := by simp [vm_steps, hr, hc]
        rw [hm]
        simp only [List.drop_succ_cons, List.drop_zero, List.take_succ_cons, List.take_zero,
          chain_bytes_cons, chain_bytes_nil, Nat.add_zero]
        rw [keep_count]
        simp only [hr, if_true, sub_min_eq]
      · have hm : vm_steps d clock (s :: t) r i =
            1 + vm_steps d clock t (r - min r s.mem_size) (i + 1) := by
          simp [vm_steps, hr, hc]
        rw [hm, Nat.add_comm 1]
        simp only [List.drop_succ_cons, List.take_succ_cons, chain_bytes_cons]
        rw [keep_count]
        simp only [hr, if_true]
        rw [ih (r - min r s.mem_size) (i + 1)]
        simp only [sub_min_eq, Nat.sub_sub]
        omega
    · have hz : r = 0 := by omega
      subst hz
      have hm : vm_steps d clock (s :: t) 0 i = 0 := by simp [vm_steps]
      rw [hm]
      simp [keep_count]

/-- A `return_to_vm` call after which the target is covered or the chain is used up
returns false and completes the VM phase. -/
theorem return_to_vm_finishing (p : G1ReturnMemoryProcessor) (fl : G1SegmentedArrayFreeList)
    (d : Int) (clock : Nat → Int)
    (hs : p._source.isSome = true) (hr : 0 < p._return_to_vm_size) (hf : p._first ≠ [])
    (hc : p._return_to_vm_size -
        chain_bytes (p._first.take (vm_steps d clock p._first p._return_to_vm_size 0)) = 0 ∨
      (p._first.drop (vm_steps d clock p._first p._return_to_vm_size 0)).isEmpty = true) :
    return_to_vm p fl d clock =
      .returned { result := false,
                  clock_reads := vm_steps d clock p._first p._return_to_vm_size 0 }
        (vm_done p (vm_steps d clock p._first p._return_to_vm_size 0))
        (fl.bulk_add (p._first.take (vm_steps d clock p._first p._return_to_vm_size 0))
          (size_t_count 0 (p._first.take (vm_steps d clock p._first p._return_to_vm_size 0)))
          (size_t_bytes 0 (p._first.take (vm_steps d clock p._first p._return_to_vm_size 0)))) := by
  rw [return_to_vm_returned p fl d clock hs hr hf]
  simp only [vm_after, if_pos hc, vm_done]
  rfl

/-- A `return_to_vm` call after which target and chain both remain returns true and
leaves a processor that is again ready for `return_to_vm`. -/
theorem return_to_vm_continuing (p : G1ReturnMemoryProcessor) (fl : G1SegmentedArrayFreeList)
    (d : Int) (clock : Nat → Int)
    (hs : p._source.isSome = true) (hr : 0 < p._return_to_vm_size) (hf : p._first ≠ [])
    (hc : ¬ (p._return_to_vm_size -
        chain_bytes (p._first.take (vm_steps d clock p._first p._return_to_vm_size 0)) = 0 ∨
      (p._first.drop (vm_steps d clock p._first p._return_to_vm_size 0)).isEmpty = true)) :
    return_to_vm p fl d clock =
      .returned { result := true,
                  clock_reads := vm_steps d clock p._first p._return_to_vm_size 0 }
        { p with _first := p._first.drop (vm_steps d clock p._first p._return_to_vm_size 0),
                 _return_to_vm_size := p._return_to_vm_size -
                   chain_bytes (p._first.take (vm_steps d clock p._first p._return_to_vm_size 0)) }
        (fl.bulk_add (p._first.take (vm_steps d clock p._first p._return_to_vm_size 0))
          (size_t_count 0 (p._first.take (vm_steps d clock p._first p._return_to_vm_size 0)))
          (size_t_bytes 0 (p._first.take (vm_steps d clock p._first p._return_to_vm_size 0)))) := by
  rw [return_to_vm_returned p fl d clock hs hr hf]
  simp only [vm_after, if_neg hc, hs]

theorem bulk_add_num_segments (fl : G1SegmentedArrayFreeList) (c : Chain) (b : Nat) :
    (fl.bulk_add c (size_t_count 0 c) b)._num_segments =
      (fl._num_segments + c.length) % 2 ^ 64 := by
  simp only [G1SegmentedArrayFreeList.bulk_add, size_t_add]
  rw [size_t_count_eq 0 c (by norm_num), Nat.zero_add, Nat.add_mod_mod]

theorem bulk_add_mem_size (fl : G1SegmentedArrayFreeList) (c : Chain) (k : Nat) :
    (fl.bulk_add c k (size_t_bytes 0 c))._mem_size =
      (fl._mem_size + chain_bytes c) % 2 ^ 64 := by
  simp only [G1SegmentedArrayFreeList.bulk_add, size_t_add]
  rw [size_t_bytes_eq 0 c (by norm_num), Nat.zero_add, Nat.add_mod_mod]

/-- The VM phase run to completion through any number of calls: with enough fuel the
driver returns, after at least one and at most `keep_count` calls, with the processor
`vm_done`; the free list has received the first `keep_count` segments of the detached
chain, in some order, and its counters have grown by their count and bytes. -/
theorem repeat_return_to_vm_spec (deadlines : Nat → Int) (clocks : Nat → Nat → Int)
    (fuel : Nat) :
    ∀ (n : Nat) (p : G1ReturnMemoryProcessor) (fl : G1SegmentedArrayFreeList),
      p._source.isSome = true → 0 < p._return_to_vm_size → p._first ≠ [] →
      p._first.length ≤ fuel →
      ∃ n1 fl1,
        repeat_return_to_vm deadlines clocks fuel n p fl =
            some (n1, vm_done p (keep_count p._first p._return_to_vm_size), fl1) ∧
          n < n1 ∧ n1 ≤ n + keep_count p._first p._return_to_vm_size ∧
          fl1._list.Perm
            (p._first.take (keep_count p._first p._return_to_vm_size) ++ fl._list) ∧
          fl1.addr = fl.addr ∧
          fl1._num_segments =
            (fl._num_segments +
              (p._first.take (keep_count p._first p._return_to_vm_size)).length) % 2 ^ 64 ∧
          fl1._mem_size =
            (fl._mem_size +
              chain_bytes (p._first.take (keep_count p._first p._return_to_vm_size))) %
                2 ^ 64 := by
  induction fuel with
  | zero =>
    intro n p fl _ _ hf hlen
    exact absurd (List.length_eq_zero.mp (Nat.le_zero.mp hlen)) hf
  | succ fuel ih =>
    intro n p fl hs hr hf hlen
    have hm := vm_steps_pos (deadlines n) (clocks n) p._first p._return_to_vm_size 0 hf hr
    have hsplit := keep_count_split (deadlines n) (clocks n) p._first p._return_to_vm_size 0
    by_cases hc : p._return_to_vm_size - chain_bytes (p._first.take
          (vm_steps (deadlines n) (clocks n) p._first p._return_to_vm_size 0)) = 0 ∨
        (p._first.drop
          (vm_steps (deadlines n) (clocks n) p._first p._return_to_vm_size 0)).isEmpty = true
    · have hk0 : keep_count
          (p._first.drop (vm_steps (deadlines n) (clocks n) p._first p._return_to_vm_size 0))
          (p._return_to_vm_size - chain_bytes (p._first.take
            (vm_steps (deadlines n) (clocks n) p._first p._return_to_vm_size 0))) = 0 := by
        rcases hc with hc | hc
        · rw [hc, keep_count_zero_target]
        · rw [List.isEmpty_iff.mp hc]
          rfl
      have hK : keep_count p._first p._return_to_vm_size =
          vm_steps (deadlines n) (clocks n) p._first p._return_to_vm_size 0 := by
        rw [hsplit, hk0, Nat.add_zero]
      refine ⟨n + 1,
        fl.bulk_add
          (p._first.take (vm_steps (deadlines n) (clocks n) p._first p._return_to_vm_size 0))
          (size_t_count 0 (p._first.take
            (vm_steps (deadlines n) (clocks n) p._first p._return_to_vm_size 0)))
          (size_t_bytes 0 (p._first.take
            (vm_steps (deadlines n) (clocks n) p._first p._return_to_vm_size 0))),
        ?_, by omega, by omega, ?_, ?_, ?_, ?_⟩
      · simp only [repeat_return_to_vm,
          return_to_vm_finishing p fl (deadlines n) (clocks n) hs hr hf hc, hK]
        rfl
      · rw [hK]
        simp only [G1SegmentedArrayFreeList.bulk_add]
        exact List.Perm.refl _
      · simp [G1SegmentedArrayFreeList.bulk_add]
      · rw [hK]
        exact bulk_add_num_segments _ _ _
      · rw [hK]
        exact bulk_add_mem_size _ _ _
    · have hc2 := hc
      push_neg at hc2
      obtain ⟨hc3, hc4⟩ := hc2
      have hne1 : p._first.drop
          (vm_steps (deadlines n) (clocks n) p._first p._return_to_vm_size 0) ≠ [] := by
        intro h0
        rw [h0] at hc4
        simp at hc4
      have hlen1 : (p._first.drop
          (vm_steps (deadlines n) (clocks n) p._first p._return_to_vm_size 0)).length ≤ fuel := by
        rw [List.length_drop]
        omega
      obtain ⟨n1, fl1, hrep, hn1, hn2, hperm, haddr, hnum, hbytes⟩ :=
        ih (n + 1)
          { p with
            _first := p._first.drop
              (vm_steps (deadlines n) (clocks n) p._first p._return_to_vm_size 0),
            _return_to_vm_size := p._return_to_vm_size - chain_bytes (p._first.take
              (vm_steps (deadlines n) (clocks n) p._first p._return_to_vm_size 0)) }
          (fl.bulk_add
            (p._first.take (vm_steps (deadlines n) (clocks n) p._first p._return_to_vm_size 0))
            (size_t_count 0 (p._first.take
              (vm_steps (deadlines n) (clocks n) p._first p._return_to_vm_size 0)))
            (size_t_bytes 0 (p._first.take
              (vm_steps (deadlines n) (clocks n) p._first p._return_to_vm_size 0))))
          hs (by show 0 < p._return_to_vm_size - _; omega) hne1 hlen1
      simp only at hrep hn2 hperm hnum hbytes
      have htake : p._first.take (keep_count p._first p._return_to_vm_size) =
          p._first.take (vm_steps (deadlines n) (clocks n) p._first p._return_to_vm_size 0) ++
            (p._first.drop
              (vm_steps (deadlines n) (clocks n) p._first p._return_to_vm_size 0)).take
              (keep_count
                (p._first.drop
                  (vm_steps (deadlines n) (clocks n) p._first p._return_to_vm_size 0))
                (p._return_to_vm_size - chain_bytes (p._first.take
                  (vm_steps (deadlines n) (clocks n) p._first p._return_to_vm_size 0)))) := by
        rw [hsplit, List.take_add]
      refine ⟨n1, fl1, ?_, by omega, by omega, ?_, ?_, ?_, ?_⟩
      · simp only [repeat_return_to_vm,
          return_to_vm_continuing p fl (deadlines n) (clocks n) hs hr hf hc, if_true]
        rw [hrep]
        simp only [vm_done, List.drop_drop]
        rw [← hsplit]
      · rw [htake]
        refine hperm.trans ?_
        simp only [G1SegmentedArrayFreeList.bulk_add, List.append_assoc]
        exact List.perm_append_comm_assoc _ _ _
      · rw [haddr]
        simp [G1SegmentedArrayFreeList.bulk_add]
      · rw [hnum, bulk_add_num_segments, htake, List.length_append, Nat.mod_add_mod,
          Nat.add_assoc]
      · rw [hbytes, bulk_add_mem_size, htake, chain_bytes_append, Nat.mod_add_mod,
          Nat.add_assoc]

/-- The OS phase run to completion through any number of calls: with enough fuel the
driver returns, after at least one and at most as many calls as there are detached
segments, with an empty detached chain; every detached segment has been deleted, in
order, and the free list is untouched. -/
theorem repeat_return_to_os_spec (deadlines : Nat → Int) (clocks : Nat → Nat → Int)
    (fuel : Nat) :
    ∀ (n : Nat) (p : G1ReturnMemoryProcessor) (fl : G1SegmentedArrayFreeList)
      (destroyed : Chain),
      finished_return_to_vm p = true → p._first ≠ [] → p._first.length ≤ fuel →
      ∃ n1,
        repeat_return_to_os deadlines clocks fuel n p fl destroyed =
            some (n1, { p with _first := [] }, fl, destroyed ++ p._first) ∧
          n < n1 ∧ n1 ≤ n + p._first.length := by
  induction fuel with
  | zero =>
    intro n p fl destroyed _ hf hlen
    exact absurd (List.length_eq_zero.mp (Nat.le_zero.mp hlen)) hf
  | succ fuel ih =>
    intro n p fl destroyed hv hf hlen
    have hm := os_steps_pos (deadlines n) (clocks n) p._first 0 hf
    have hcall := return_to_os_returned p fl (deadlines n) (clocks n) hv hf
    by_cases he : p._first.drop (os_steps (deadlines n) (clocks n) p._first 0) = []
    · have hle : p._first.length ≤ os_steps (deadlines n) (clocks n) p._first 0 :=
        List.drop_eq_nil_iff.mp he
      have htake : p._first.take (os_steps (deadlines n) (clocks n) p._first 0) = p._first :=
        List.take_of_length_le hle
      have hlen0 : 0 < p._first.length := List.length_pos.mpr hf
      refine ⟨n + 1, ?_, by omega, by omega⟩
      simp only [repeat_return_to_os, hcall, he, htake, List.isEmpty_nil, Bool.not_true,
        Bool.false_eq_true, if_false]
    · have hne : (p._first.drop (os_steps (deadlines n) (clocks n) p._first 0)).isEmpty =
          false := by
        cases hd : p._first.drop (os_steps (deadlines n) (clocks n) p._first 0) with
        | nil => exact absurd hd he
        | cons a t => rfl
      have hlen1 : (p._first.drop (os_steps (deadlines n) (clocks n) p._first 0)).length ≤
          fuel := by
        rw [List.length_drop]
        omega
      obtain ⟨n1, hrep, hn1, hn2⟩ :=
        ih (n + 1)
          { p with _first := p._first.drop (os_steps (deadlines n) (clocks n) p._first 0) } fl
          (destroyed ++ p._first.take (os_steps (deadlines n) (clocks n) p._first 0))
          hv he hlen1
      simp only [List.length_drop] at hn2
      refine ⟨n1, ?_, by omega, by omega⟩
      simp only [repeat_return_to_os, hcall, hne, Bool.not_false, if_true]
      rw [hrep]
      simp only [List.append_assoc, List.take_append_drop]

/-- In a state that satisfies the invariant, with enough fuel, the driver of both
phases returns after at most as many calls as there are detached segments, with both
phases finished. -/
theorem drive_spec (deadlines : Nat → Int) (clocks : Nat → Nat → Int) (fuel : Nat)
    (p : G1ReturnMemoryProcessor) (fl : G1SegmentedArrayFreeList)
    (hinv : state_invariant p = true) (hfuel : p._first.length ≤ fuel) :
    ∃ n p2 fl2 destroyed,
      drive deadlines clocks fuel p fl = some (n, p2, fl2, destroyed) ∧
        n ≤ p._first.length ∧
        finished_return_to_vm p2 = true ∧ finished_return_to_os p2 = true := by
  by_cases hfin : finished_return_to_vm p = true
  · by_cases hos : finished_return_to_os p = true
    · refine ⟨0, p, fl, [], ?_, Nat.zero_le _, hfin, hos⟩
      simp [drive, hfin, hos]
    · have hf : p._first ≠ [] := by
        intro h0
        apply hos
        simp [finished_return_to_os, h0]
      obtain ⟨n1, hrep, _, hn2⟩ :=
        repeat_return_to_os_spec deadlines clocks fuel 0 p fl [] hfin hf hfuel
      refine ⟨n1, { p with _first := [] }, fl, [] ++ p._first, ?_, by omega, ?_, ?_⟩
      · simp only [drive, hfin, if_true]
        simp only [hos, Bool.false_eq_true, if_false]
        exact hrep
      · simpa [finished_return_to_vm] using hfin
      · simp [finished_return_to_os]
  · have hfin2 : finished_return_to_vm p = false := by simpa using hfin
    obtain ⟨hs, hr, hf⟩ := pending_of_invariant p hinv hfin2
    obtain ⟨n1, fl1, hrep, _, hn2, _⟩ :=
      repeat_return_to_vm_spec deadlines clocks fuel 0 p fl hs hr hf hfuel
    have hK := keep_count_le_length p._first p._return_to_vm_size
    have hvfin : finished_return_to_vm
        (vm_done p (keep_count p._first p._return_to_vm_size)) = true := by
      simp [finished_return_to_vm, vm_done]
    by_cases hos : finished_return_to_os
        (vm_done p (keep_count p._first p._return_to_vm_size)) = true
    · refine ⟨n1, _, fl1, [], ?_, by omega, hvfin, hos⟩
      simp only [drive, hfin2, Bool.false_eq_true, if_false, hrep, hos, if_true]
    · have hf2 : (vm_done p (keep_count p._first p._return_to_vm_size))._first ≠ [] := by
        intro h0
        apply hos
        simp [finished_return_to_os, h0]
      have hlen2 : (vm_done p (keep_count p._first p._return_to_vm_size))._first.length ≤
          fuel := by
        simp only [vm_done, List.length_drop]
        omega
      obtain ⟨n2, hrep2, _, hn3⟩ :=
        repeat_return_to_os_spec deadlines clocks fuel n1 _ fl1 [] hvfin hf2 hlen2
      simp only [vm_done, List.length_drop] at hn3
      refine ⟨n2, { vm_done p (keep_count p._first p._return_to_vm_size) with _first := [] },
        fl1, [] ++ (vm_done p (keep_count p._first p._return_to_vm_size))._first, ?_, by omega,
        ?_, ?_⟩
      · simp only [drive, hfin2, Bool.false_eq_true, if_false, hrep]
        simp only [hos, Bool.false_eq_true, if_false]
        exact hrep2
      · simp [finished_return_to_vm, vm_done]
      · simp [finished_return_to_os]

/-! ## Progress, termination and slicing -/

/-- C17: guaranteed progress per call. Whatever the clock, every returning
`return_to_vm` call moves at least one segment from the detached chain to the free
list, and every returning `return_to_os` call deletes at least one segment. Therefore
the driver that, after `visit_free_list` on a newly constructed processor, repeats
`return_to_vm` until it returns false and then `return_to_os` until it returns false
returns, given fuel for `L` calls, after at most `L` calls in total with both phases
finished, `L` being the length of the detached chain after the visit. -/
theorem C17_progress_and_termination :
    (∀ (p p1 : G1ReturnMemoryProcessor) (fl fl1 : G1SegmentedArrayFreeList) (d : Int)
        (clock : Nat → Int) (ret : VmReturn),
      return_to_vm p fl d clock = .returned ret p1 fl1 →
      ∃ m, 0 < m ∧ fl1._list = p._first.take m ++ fl._list ∧ p1._first = p._first.drop m ∧
        p1._first.length + m = p._first.length) ∧
    (∀ (p p1 : G1ReturnMemoryProcessor) (fl fl1 : G1SegmentedArrayFreeList) (d : Int)
        (clock : Nat → Int) (ret : OsReturn),
      return_to_os p fl d clock = .returned ret p1 fl1 →
      0 < ret.deleted.length ∧ p1._first.length + ret.deleted.length = p._first.length) ∧
    (∀ (deadlines : Nat → Int) (clocks : Nat → Nat → Int) (target fuel : Nat)
        (fl fl1 : G1SegmentedArrayFreeList) (p1 : G1ReturnMemoryProcessor),
      visit_free_list (G1ReturnMemoryProcessor.create target) fl = .returned () p1 fl1 →
      p1._first.length ≤ fuel →
      ∃ n p2 fl2 destroyed,
        drive deadlines clocks fuel p1 fl1 = some (n, p2, fl2, destroyed) ∧
          n ≤ p1._first.length ∧
          finished_return_to_vm p2 = true ∧ finished_return_to_os p2 = true) := by
  refine ⟨?_, ?_, ?_⟩
  · intro p p1 fl fl1 d clock ret h
    obtain ⟨_, hr, hf⟩ := return_to_vm_returned_pre p fl d clock ret p1 fl1 h
    obtain ⟨_, h2, h3, _⟩ := return_to_vm_shape p p1 fl fl1 d clock ret h
    have hm := vm_steps_pos d clock p._first p._return_to_vm_size 0 hf hr
    have hle := vm_steps_le_length d clock p._first p._return_to_vm_size 0
    refine ⟨_, hm, h2, h3, ?_⟩
    rw [h3, List.length_drop]
    omega
  · intro p p1 fl fl1 d clock ret h
    obtain ⟨_, hf⟩ := return_to_os_returned_pre p fl d clock ret p1 fl1 h
    obtain ⟨_, h2, h3, _⟩ := return_to_os_shape p p1 fl fl1 d clock ret h
    have hm := os_steps_pos d clock p._first 0 hf
    have hle := os_steps_le_length d clock p._first 0
    have hlen : 0 < p._first.length := List.length_pos.mpr hf
    rw [h2, h3]
    simp only [List.length_take, List.length_drop]
    omega
  · intro deadlines clocks target fuel fl fl1 p1 hv hfuel
    exact drive_spec deadlines clocks fuel p1 fl1 (visit_state_invariant _ _ _ _ hv) hfuel

/-- Witness for C17: five detached segments of 10 bytes, target 20, and a deadline that
is past at every reading: two `return_to_vm` calls and three `return_to_os` calls. -/
theorem C17_progress_and_termination_witness :
    (∃ m, 0 < m ∧
        (free_list_of 1 (uniform_chain 100 10 1))._list =
          pending_processor._first.take m ++ (free_list_of 1 [])._list ∧
        ({ pending_processor with _first := uniform_chain 101 10 4, _return_to_vm_size := 10 } :
            G1ReturnMemoryProcessor)._first = pending_processor._first.drop m ∧
        ({ pending_processor with _first := uniform_chain 101 10 4, _return_to_vm_size := 10 } :
            G1ReturnMemoryProcessor)._first.length + m = pending_processor._first.length) ∧
      (0 < ({ result := true, deleted := uniform_chain 102 10 2, clock_reads := 2 } :
            OsReturn).deleted.length ∧
        ({ drained_processor with _first := uniform_chain 104 10 1 } :
            G1ReturnMemoryProcessor)._first.length +
          ({ result := true, deleted := uniform_chain 102 10 2, clock_reads := 2 } :
            OsReturn).deleted.length = drained_processor._first.length) ∧
      (∃ n p2 fl2 destroyed,
        drive (fun _ => 0) (fun _ => clock_past 0) 5 pending_processor (free_list_of 1 []) =
            some (n, p2, fl2, destroyed) ∧
          n ≤ pending_processor._first.length ∧
          finished_return_to_vm p2 = true ∧ finished_return_to_os p2 = true) :=
  ⟨C17_progress_and_termination.1 pending_processor
      { pending_processor with _first := uniform_chain 101 10 4, _return_to_vm_size := 10 }
      (free_list_of 1 []) (free_list_of 1 (uniform_chain 100 10 1)) 0 (clock_past 0)
      { result := true, clock_reads := 1 } rfl,
    C17_progress_and_termination.2.1 drained_processor
      { drained_processor with _first := uniform_chain 104 10 1 }
      (free_list_of 1 (uniform_chain 100 10 2)) (free_list_of 1 (uniform_chain 100 10 2))
      0 ticking_clock
      { result := true, deleted := uniform_chain 102 10 2, clock_reads := 2 } rfl,
    C17_progress_and_termination.2.2 (fun _ => 0) (fun _ => clock_past 0) 20 5
      (free_list_of 1 (uniform_chain 100 10 5)) (free_list_of 1 []) pending_processor rfl
      (by decide)⟩

/-- C18: slicing independence. For every processor with a source, a positive target and
a non-empty detached chain, running `return_to_vm` to completion through any number
of calls, whatever their deadlines and clocks, ends with the same processor state (so
the same detached chain for `return_to_os`) as a single `return_to_vm` call with no
deadline expiry; the free list holds the same segments up to their order, and the same
`num_segments()` and `mem_size()`. -/
theorem C18_slicing_independence (p : G1ReturnMemoryProcessor)
    (fl : G1SegmentedArrayFreeList) (deadlines : Nat → Int) (clocks : Nat → Nat → Int)
    (d0 : Int) (clock0 : Nat → Int) (fuel : Nat)
    (hs : p._source.isSome = true) (hr : 0 < p._return_to_vm_size) (hf : p._first ≠ [])
    (hno : ∀ i, clock0 i ≤ d0) (hfuel : p._first.length ≤ fuel) :
    ∃ n p1 fl1 ret p2 fl2,
      repeat_return_to_vm deadlines clocks fuel 0 p fl = some (n, p1, fl1) ∧
        return_to_vm p fl d0 clock0 = .returned ret p2 fl2 ∧
        ret.result = false ∧ p1 = p2 ∧ p1._first = p2._first ∧
        fl1._list.Perm fl2._list ∧
        fl1.num_segments = fl2.num_segments ∧ fl1.mem_size = fl2.mem_size ∧
        fl1.addr = fl2.addr := by
  obtain ⟨n1, fl1, hrep, _, _, hperm, haddr, hnum, hbytes⟩ :=
    repeat_return_to_vm_spec deadlines clocks fuel 0 p fl hs hr hf hfuel
  have hK : vm_steps d0 clock0 p._first p._return_to_vm_size 0 =
      keep_count p._first p._return_to_vm_size :=
    vm_steps_eq_keep_count d0 clock0 p._first p._return_to_vm_size 0 hno
  have hc : p._return_to_vm_size -
        chain_bytes (p._first.take (vm_steps d0 clock0 p._first p._return_to_vm_size 0)) = 0 ∨
      (p._first.drop (vm_steps d0 clock0 p._first p._return_to_vm_size 0)).isEmpty = true := by
    rcases vm_steps_no_expiry d0 clock0 p._first p._return_to_vm_size 0 hno with h | h
    · right
      rw [h, List.drop_length]
      rfl
    · left
      omega
  have hcall := return_to_vm_finishing p fl d0 clock0 hs hr hf hc
  rw [hK] at hcall
  refine ⟨n1, _, fl1, _, _, _, hrep, hcall, rfl, rfl, rfl, ?_, ?_, ?_, ?_⟩
  · simpa [G1SegmentedArrayFreeList.bulk_add] using hperm
  · simp only [G1SegmentedArrayFreeList.num_segments]
    rw [hnum, bulk_add_num_segments]
  · simp only [G1SegmentedArrayFreeList.mem_size]
    rw [hbytes, bulk_add_mem_size]
  · rw [haddr]
    simp [G1SegmentedArrayFreeList.bulk_add]

/-- Witness for C18: five detached segments of 10 bytes, target 20; two calls with the
deadline past at every reading against one call with time to spare. -/
theorem C18_slicing_independence_witness :
    ∃ n p1 fl1 ret p2 fl2,
      repeat_return_to_vm (fun _ => 0) (fun _ => clock_past 0) 5 0 pending_processor
          (free_list_of 1 []) = some (n, p1, fl1) ∧
        return_to_vm pending_processor (free_list_of 1 []) 0 (clock_before 0) =
          .returned ret p2 fl2 ∧
        ret.result = false ∧ p1 = p2 ∧ p1._first = p2._first ∧
        fl1._list.Perm fl2._list ∧
        fl1.num_segments = fl2.num_segments ∧ fl1.mem_size = fl2.mem_size ∧
        fl1.addr = fl2.addr :=
  C18_slicing_independence pending_processor (free_list_of 1 []) (fun _ => 0)
    (fun _ => clock_past 0) 0 (clock_before 0) 5 rfl (by decide) (by decide)
    (fun _ => le_refl _) (by decide)

/-! ## A target of zero -/

/-- C19: a target of zero drains everything. For every free list with a non-empty chain
and a positive `mem_size()`, and a processor constructed with `_return_to_vm_size = 0`,
`visit_free_list` detaches the whole chain and leaves `_source` null, so
`finished_return_to_vm()` is true at once and `finished_return_to_os()` is false;
`return_to_vm` stops at its entry assertion as long as the cycle lasts, whatever is left
of the detached chain; and `return_to_os` repeated to completion, given enough fuel,
deletes every segment that was in the free list, in at most as many calls as there are
segments, the free list staying empty. -/
theorem C19_zero_target_drains (fl : G1SegmentedArrayFreeList)
    (hne : fl._list ≠ []) (hsize : 0 < fl.mem_size) :
    ∃ p1 fl1,
      visit_free_list (G1ReturnMemoryProcessor.create 0) fl = .returned () p1 fl1 ∧
        p1._source = none ∧ p1._return_to_vm_size = 0 ∧ p1._first = fl._list ∧
        fl1._list = [] ∧
        finished_return_to_vm p1 = true ∧ finished_return_to_os p1 = false ∧
        (∀ (c : Chain) (fl2 : G1SegmentedArrayFreeList) (d : Int) (clock : Nat → Int),
          return_to_vm { p1 with _first := c } fl2 d clock =
            .stopped .already_returned_to_vm { p1 with _first := c } fl2) ∧
        (∀ (deadlines : Nat → Int) (clocks : Nat → Nat → Int) (fuel : Nat),
          fl._list.length ≤ fuel →
          ∃ n, repeat_return_to_os deadlines clocks fuel 0 p1 fl1 [] =
              some (n, { p1 with _first := [] }, fl1, fl._list) ∧
            0 < n ∧ n ≤ fl._list.length) := by
  have hemp : fl._list.isEmpty = false := by
    cases hl : fl._list with
    | nil => exact absurd hl hne
    | cons a t => rfl
  have hv : visit_free_list (G1ReturnMemoryProcessor.create 0) fl =
      .returned ()
        { _source := none, _return_to_vm_size := 0, _first := fl._list,
          _unlinked_bytes := fl._mem_size, _num_unlinked := fl._num_segments }
        { fl with _list := [], _num_segments := 0, _mem_size := 0 } := by
    rw [visit_free_list_eq]
    simp [G1ReturnMemoryProcessor.create, hsize, visit_reset, hemp]
  refine ⟨_, _, hv, rfl, rfl, rfl, rfl, ?_, ?_, ?_, ?_⟩
  · simp [finished_return_to_vm]
  · simp [finished_return_to_os, hemp]
  · intro c fl2 d clock
    simp [return_to_vm, finished_return_to_vm]
  · intro deadlines clocks fuel hfuel
    obtain ⟨n, hrep, hn1, hn2⟩ :=
      repeat_return_to_os_spec deadlines clocks fuel 0
        { _source := none, _return_to_vm_size := 0, _first := fl._list,
          _unlinked_bytes := fl._mem_size, _num_unlinked := fl._num_segments }
        { fl with _list := [], _num_segments := 0, _mem_size := 0 } []
        (by simp [finished_return_to_vm]) hne hfuel
    refine ⟨n, ?_, by omega, by simpa using hn2⟩
    simpa using hrep

/-- Witness for C19: five segments of 10 bytes and a target of 0. -/
theorem C19_zero_target_drains_witness :
    ∃ p1 fl1,
      visit_free_list (G1ReturnMemoryProcessor.create 0)
          (free_list_of 1 (uniform_chain 100 10 5)) = .returned () p1 fl1 ∧
        p1._source = none ∧ p1._return_to_vm_size = 0 ∧
        p1._first = (free_list_of 1 (uniform_chain 100 10 5))._list ∧
        fl1._list = [] ∧
        finished_return_to_vm p1 = true ∧ finished_return_to_os p1 = false ∧
        (∀ (c : Chain) (fl2 : G1SegmentedArrayFreeList) (d : Int) (clock : Nat → Int),
          return_to_vm { p1 with _first := c } fl2 d clock =
            .stopped .already_returned_to_vm { p1 with _first := c } fl2) ∧
        (∀ (deadlines : Nat → Int) (clocks : Nat → Nat → Int) (fuel : Nat),
          (free_list_of 1 (uniform_chain 100 10 5))._list.length ≤ fuel →
          ∃ n, repeat_return_to_os deadlines clocks fuel 0 p1 fl1 [] =
              some (n, { p1 with _first := [] }, fl1,
                (free_list_of 1 (uniform_chain 100 10 5))._list) ∧
            0 < n ∧ n ≤ (free_list_of 1 (uniform_chain 100 10 5))._list.length) :=
  C19_zero_target_drains (free_list_of 1 (uniform_chain 100 10 5)) (by decide) (by decide)

/-! ## Phase order -/

/-- C9, as stated, fails on a never visited processor with a positive target: on a
processor constructed with target 20, `finished_return_to_vm()` is false, yet
`return_to_vm` stops at an entry assertion, the one of line 81. So the call fails an
entry assertion without `finished_return_to_vm()` holding, and the assertion of line 80
is not the one that fails. -/
theorem C9_counterexample :
    finished_return_to_vm (G1ReturnMemoryProcessor.create 20) = false ∧
      return_to_vm (G1ReturnMemoryProcessor.create 20) (free_list_of 1 []) 0 (clock_before 0) =
        .stopped .must_have_segment (G1ReturnMemoryProcessor.create 20) (free_list_of 1 []) ∧
      ¬ ((∃ s p1 fl1,
            return_to_vm (G1ReturnMemoryProcessor.create 20) (free_list_of 1 []) 0
              (clock_before 0) = .stopped s p1 fl1) ↔
          finished_return_to_vm (G1ReturnMemoryProcessor.create 20) = true) ∧
      ¬ (return_to_vm (G1ReturnMemoryProcessor.create 20) (free_list_of 1 []) 0
            (clock_before 0) =
          .stopped .already_returned_to_vm (G1ReturnMemoryProcessor.create 20)
            (free_list_of 1 [])) := by
  have hstop : return_to_vm (G1ReturnMemoryProcessor.create 20) (free_list_of 1 []) 0
      (clock_before 0) =
      .stopped .must_have_segment (G1ReturnMemoryProcessor.create 20) (free_list_of 1 []) := rfl
  refine ⟨rfl, hstop, ?_, ?_⟩
  · intro h
    have hfin := h.mp ⟨_, _, _, hstop⟩
    exact absurd hfin (by decide)
  · rw [hstop]
    intro h
    simp at h

/-- C9, amended: phase-order violations are rejected. `return_to_vm` stops at the
assertion of line 80 exactly when `finished_return_to_vm()` holds at entry, and at the
assertion of line 81 exactly when `finished_return_to_vm()` is false and the detached
chain is empty. In every state that satisfies the invariant established by
`visit_free_list` and `return_to_vm`, so in every state after a visit, `return_to_vm`
stops if and only if `finished_return_to_vm()` holds at entry; in particular every call
after a `return_to_vm` call that returned false stops at line 80. On a never visited
processor `return_to_vm` stops at line 80 when the target is 0 and at line 81 when it is
positive. `return_to_os` stops at an entry assertion if and only if
`finished_return_to_vm()` is false or `finished_return_to_os()` is true at entry. In all
these stops the processor and the free list are those of the entry. -/
theorem C9_phase_order_amended (p : G1ReturnMemoryProcessor) (fl : G1SegmentedArrayFreeList)
    (d : Int) (clock : Nat → Int) (target : Nat) :
    (return_to_vm p fl d clock = .stopped .already_returned_to_vm p fl ↔
        finished_return_to_vm p = true) ∧
      (return_to_vm p fl d clock = .stopped .must_have_segment p fl ↔
        finished_return_to_vm p = false ∧ p._first = []) ∧
      (state_invariant p = true →
        ((∃ s p1 fl1, return_to_vm p fl d clock = .stopped s p1 fl1) ↔
          finished_return_to_vm p = true)) ∧
      (∀ (ret : VmReturn) (p1 : G1ReturnMemoryProcessor) (fl1 fl2 : G1SegmentedArrayFreeList)
          (d2 : Int) (clock2 : Nat → Int),
        return_to_vm p fl d clock = .returned ret p1 fl1 → ret.result = false →
        return_to_vm p1 fl2 d2 clock2 = .stopped .already_returned_to_vm p1 fl2) ∧
      return_to_vm (G1ReturnMemoryProcessor.create target) fl d clock =
        .stopped (if target = 0 then .already_returned_to_vm else .must_have_segment)
          (G1ReturnMemoryProcessor.create target) fl ∧
      ((∃ s p1 fl1, return_to_os p fl d clock = .stopped s p1 fl1) ↔
        (finished_return_to_vm p = false ∨ finished_return_to_os p = true)) ∧
      ((return_to_os p fl d clock = .stopped .not_finished_return_to_vm p fl ∨
          return_to_os p fl d clock = .stopped .already_returned_to_os p fl) ↔
        (finished_return_to_vm p = false ∨ finished_return_to_os p = true)) ∧
      return_to_os (G1ReturnMemoryProcessor.create target) fl d clock =
        .stopped (if target = 0 then .already_returned_to_os else .not_finished_return_to_vm)
          (G1ReturnMemoryProcessor.create target) fl := by
  obtain ⟨_, hvm, hos2, hos, _, _⟩ := entry_assertion_stops p fl d clock target
  refine ⟨hvm, ?_, ?_, ?_, ?_, hos2, hos, ?_⟩
  · constructor
    · intro h
      have hff : finished_return_to_vm p = false := by
        by_contra hf
        have hft : finished_return_to_vm p = true := by simpa using hf
        rw [hvm.mpr hft] at h
        simp at h
      refine ⟨hff, ?_⟩
      by_contra hne
      have hemp : p._first.isEmpty = false := by
        cases hl : p._first with
        | nil => exact absurd hl hne
        | cons a t => rfl
      unfold return_to_vm at h
      rw [hff] at h
      simp only [Bool.false_eq_true, if_false, hemp] at h
      split_ifs at h <;> simp at h
    · rintro ⟨hff, he⟩
      simp [return_to_vm, hff, he]
  · intro hinv
    constructor
    · rintro ⟨s, p1, fl1, h⟩
      by_contra hf
      have hff : finished_return_to_vm p = false := by simpa using hf
      obtain ⟨hs, hr, hne⟩ := pending_of_invariant p hinv hff
      rw [return_to_vm_returned p fl d clock hs hr hne] at h
      simp at h
    · intro hf
      exact ⟨_, _, _, hvm.mpr hf⟩
  · intro ret p1 fl1 fl2 d2 clock2 h hres
    obtain ⟨_, _, _, _, h5, _⟩ := return_to_vm_shape p p1 fl fl1 d clock ret h
    have hinv := return_to_vm_state_invariant p p1 fl fl1 d clock ret h
    have hnone : p1._source.isSome = false := by rw [← h5, hres]
    have hz : p1._return_to_vm_size = 0 := by
      obtain ⟨h1, _⟩ := (state_invariant_iff p1).mp hinv
      rcases Nat.eq_zero_or_pos p1._return_to_vm_size with h0 | h0
      · exact h0
      · have := h1.mpr h0
        rw [hnone] at this
        simp at this
    have hfin : finished_return_to_vm p1 = true := by
      cases hsrc : p1._source with
      | none => simp [finished_return_to_vm, hsrc, hz]
      | some a => simp [hsrc] at hnone
    simp [return_to_vm, hfin]
  · by_cases ht : target = 0
    · simp [return_to_vm, finished_return_to_vm, G1ReturnMemoryProcessor.create, ht]
    · simp [return_to_vm, finished_return_to_vm, G1ReturnMemoryProcessor.create, ht]
  · by_cases ht : target = 0
    · simp [return_to_os, finished_return_to_vm, finished_return_to_os,
        G1ReturnMemoryProcessor.create, ht]
    · simp [return_to_os, finished_return_to_vm, G1ReturnMemoryProcessor.create, ht]

/-- Witness for C9 (amended): the processor with a completed VM phase satisfies the
invariant, so `return_to_vm` stops on it exactly because `finished_return_to_vm()`
holds; and the call after the `return_to_vm` call that returned false stops at
line 80. -/
theorem C9_phase_order_amended_witness :
    ((∃ s p1 fl1, return_to_vm drained_processor (free_list_of 1 (uniform_chain 100 10 2)) 0
          (clock_before 0) = .stopped s p1 fl1) ↔
        finished_return_to_vm drained_processor = true) ∧
      return_to_vm drained_processor (free_list_of 1 (uniform_chain 100 10 2)) 0
          (clock_before 0) =
        .stopped .already_returned_to_vm drained_processor
          (free_list_of 1 (uniform_chain 100 10 2)) :=
  ⟨(C9_phase_order_amended drained_processor (free_list_of 1 (uniform_chain 100 10 2)) 0
      (clock_before 0) 20).2.2.1 (by decide),
    (C9_phase_order_amended pending_processor (free_list_of 1 []) 0 (clock_before 0)
      20).2.2.2.1 { result := false, clock_reads := 2 } drained_processor
      (free_list_of 1 (uniform_chain 100 10 2)) (free_list_of 1 (uniform_chain 100 10 2)) 0
      (clock_before 0) rfl rfl⟩

end G1
